import Mathlib

/-!
# scorched-web signalling server (`server/signal-go/main.go`)

A shallow embedding of the WebSocket frame codec, of the peer / room registry
and of the message dispatcher, with the properties proved about them.

Conventions of the embedding.

* A byte is a `Nat` (the codec theorems need no bound on payload bytes: the
  header bytes the encoder writes are reduced modulo 256 where Go converts).
* A byte stream (`io.Writer` output, `bufio.Reader` input) is a `List Nat`;
  `io.ReadFull` either takes exactly the requested number of bytes or fails.
* Go `int` / `int64` values are `Int`, lengths are `Nat`.
* A Go map is an association list read through `GoMap.get` (first match).
* Every critical section of the registry runs under `s.mu`; a handler is one
  atomic step `Server → Server × List Delivery`.
-/

namespace Signal

/-! ## Frame codec -/

/-- Errors `readWSFrame` can return. -/
inductive WSError where
  | eof
  | unexpectedEOF
  | frameTooLarge
  deriving DecidableEq, Repr

/-- Model of `io.ReadFull(r, buf)` with `len(buf) = n` on a finite stream:
the `n` bytes read and the rest of the stream, `io.EOF` when nothing could
be read and `io.ErrUnexpectedEOF` on a short read. -/
def readFull (n : Nat) (input : List Nat) : Except WSError (List Nat × List Nat) :=
  if n ≤ input.length then .ok (input.take n, input.drop n)
  else if input.length = 0 then .error .eof
  else .error .unexpectedEOF

/-- Big-endian encoding of `v` on `n` bytes (`binary.BigEndian.PutUint16`
for `n = 2`, `PutUint64` for `n = 8`). -/
def putUint : Nat → Nat → List Nat
  | 0, _ => []
  | n + 1, v => (v / 256 ^ n) % 256 :: putUint n v

/-- Big-endian decoding (`binary.BigEndian.Uint16`, `Uint64`). -/
def getUint (bs : List Nat) : Nat :=
  bs.foldl (fun acc b => acc * 256 + b) 0

/-- Value of `math.MaxInt32`. -/
def maxInt32 : Nat := 2147483647

/-- Bytes `writeWSFrame(w, opcode, payload)` writes to `w`. -/
def writeWSFrame (opcode : Nat) (payload : List Nat) : List Nat :=
  let b0 := (0x80 ||| opcode) % 256
  let length := payload.length
  let header :=
    if length < 126 then [b0, length % 256]
    else if length ≤ 65535 then [b0, 126] ++ putUint 2 (length % 65536)
    else [b0, 127] ++ putUint 8 (length % 2 ^ 64)
  header ++ payload

/-- The unmasking loop `payload[i] ^= mask[i%4]`, from index `i` on. -/
def xorMask (mask : List Nat) : Nat → List Nat → List Nat
  | _, [] => []
  | i, b :: bs => (b ^^^ mask.getD (i % 4) 0) :: xorMask mask (i + 1) bs

/-- Reads the (optional) mask key and the payload: the tail of `readWSFrame`
after the length has been determined. -/
def readBody (opcode : Nat) (masked : Bool) (length : Nat) (input : List Nat) :
    Except WSError (Nat × List Nat × List Nat) :=
  match (if masked then readFull 4 input else .ok ([0, 0, 0, 0], input)) with
  | .error e => .error e
  | .ok (mask, input1) =>
    match (if 0 < length then readFull length input1 else .ok ([], input1)) with
    | .error e => .error e
    | .ok (payload, input2) =>
      .ok (opcode, if masked then xorMask mask 0 payload else payload, input2)

/-- Model of `readWSFrame(r)`: opcode, payload and the unread rest of the
stream, or the error. -/
def readWSFrame (input : List Nat) : Except WSError (Nat × List Nat × List Nat) :=
  match readFull 2 input with
  | .error e => .error e
  | .ok (head, input1) =>
    let opcode := head.getD 0 0 &&& 0x0F
    let masked := decide ((head.getD 1 0 &&& 0x80) ≠ 0)
    let lengthCode := head.getD 1 0 &&& 0x7F
    if lengthCode = 126 then
      match readFull 2 input1 with
      | .error e => .error e
      | .ok (ext, input2) => readBody opcode masked (getUint ext) input2
    else if lengthCode = 127 then
      match readFull 8 input1 with
      | .error e => .error e
      | .ok (ext, input2) =>
        let n := getUint ext
        if n > maxInt32 then .error .frameTooLarge
        else readBody opcode masked n input2
    else readBody opcode masked lengthCode input1

/-- The three length encodings of RFC 6455 that `readWSFrame` understands:
the length code `code` and the extended length bytes `ext` encode the payload
length `n`: the code itself below 126, two big-endian bytes after code 126,
eight big-endian bytes after code 127. -/
def IsLengthEncoding (code : Nat) (ext : List Nat) (n : Nat) : Prop :=
  (code < 126 ∧ ext = [] ∧ n = code) ∨
  (code = 126 ∧ ext = [n / 256, n % 256] ∧ n ≤ 65535) ∨
  (code = 127 ∧
    ext = [n / 72057594037927936 % 256, n / 281474976710656 % 256,
           n / 1099511627776 % 256, n / 4294967296 % 256, n / 16777216 % 256,
           n / 65536 % 256, n / 256 % 256, n % 256] ∧
    n < 18446744073709551616)

/-! ## Strings, maps and JSON payloads -/

/-- UTF-8 encoding of one code point (a Go string holds the UTF-8 bytes of
its text). -/
def utf8Bytes (c : Nat) : List Nat :=
  if c < 0x80 then [c]
  else if c < 0x800 then [0xC0 + c / 64, 0x80 + c % 64]
  else if c < 0x10000 then [0xE0 + c / 4096, 0x80 + c / 64 % 64, 0x80 + c % 64]
  else [0xF0 + c / 262144, 0x80 + c / 4096 % 64, 0x80 + c / 64 % 64, 0x80 + c % 64]

/-- Bytes of a Go string. Strings the code slices by byte offset (player
names, chat text) are kept as their bytes; strings that are only compared or
concatenated (ids, types, status, room names) are kept as `String`. -/
def goBytes (s : String) : List Nat :=
  s.data.foldr (fun c acc => utf8Bytes c.toNat ++ acc) []

/-- Code points `unicode.IsSpace` accepts. -/
def isSpace (c : Char) : Bool :=
  let n := c.toNat
  n == 9 || n == 10 || n == 11 || n == 12 || n == 13 || n == 32 ||
  n == 0x85 || n == 0xA0 || n == 0x1680 || (0x2000 ≤ n && n ≤ 0x200A) ||
  n == 0x2028 || n == 0x2029 || n == 0x202F || n == 0x205F || n == 0x3000

/-- Model of `strings.TrimSpace`. -/
def trimSpace (s : String) : String :=
  ⟨((s.data.dropWhile isSpace).reverse.dropWhile isSpace).reverse⟩

/-- Code points with the Unicode property White_Space: the characters
`strings.TrimSpace` removes from both ends of a string. -/
def whiteSpace : List Nat :=
  [9, 10, 11, 12, 13, 32, 133, 160, 5760, 8192, 8193, 8194, 8195, 8196, 8197, 8198,
   8199, 8200, 8201, 8202, 8232, 8233, 8239, 8287, 12288]

/-- Lookup `m[k]` in a Go map. -/
def mapGet {V : Type} : List (String × V) → String → Option V
  | [], _ => none
  | (k1, v) :: m, k => if k1 = k then some v else mapGet m k

/-- Assignment `m[k] = v`. -/
def mapSet {V : Type} : List (String × V) → String → V → List (String × V)
  | [], k, v => [(k, v)]
  | (k1, v1) :: m, k, v => if k1 = k then (k, v) :: m else (k1, v1) :: mapSet m k v

/-- Deletion `delete(m, k)`. -/
def mapDelete {V : Type} (m : List (String × V)) (k : String) : List (String × V) :=
  m.filter (fun e => decide (e.1 ≠ k))

/-- A value of a decoded JSON object (`map[string]any`): a string, a boolean,
a number (a finite float64, `mant * 2 ^ exp`), or anything else (null, array,
object: never inspected by the code, kept as raw text). -/
inductive JVal where
  | str (s : String)
  | bool (b : Bool)
  | num (mant : Int) (exp : Int)
  | other (raw : String)
  deriving DecidableEq, Repr

/-- The result of `parsePayload`: the decoded object, empty when the raw
payload is absent or is not a JSON object. -/
abbrev Payload := List (String × JVal)

/-- Model of `getString`. -/
def getString (m : Payload) (key fallback : String) : String :=
  match mapGet m key with
  | some (.str v) => if trimSpace v = "" then fallback else trimSpace v
  | _ => fallback

/-- Model of `getBool`. -/
def getBool (m : Payload) (key : String) : Bool :=
  match mapGet m key with
  | some (.bool b) => b
  | _ => false

/-- Conversion `int(n)` of a finite float64 `mant * 2 ^ exp`: truncation
toward zero; outside the int64 range the amd64 result `-2^63`. -/
def floatToInt (mant exp : Int) : Int :=
  let t := if 0 ≤ exp then mant * 2 ^ exp.toNat else Int.tdiv mant (2 ^ (-exp).toNat)
  if -9223372036854775808 ≤ t ∧ t < 9223372036854775808 then t else -9223372036854775808

/-- Value of a non-empty string of decimal digits. -/
def parseDigits : List Char → Nat → Option Nat
  | [], acc => some acc
  | c :: cs, acc =>
    if 48 ≤ c.toNat ∧ c.toNat ≤ 57 then parseDigits cs (acc * 10 + (c.toNat - 48)) else none

/-- Model of `strconv.Atoi`: optional sign, decimal digits, int64 range. -/
def atoi (s : String) : Option Int :=
  match s.data with
  | [] => none
  | c :: cs =>
    if c = '-' then
      match cs with
      | [] => none
      | _ => (parseDigits cs 0).bind fun n =>
          if n ≤ 9223372036854775808 then some (-(n : Int)) else none
    else if c = '+' then
      match cs with
      | [] => none
      | _ => (parseDigits cs 0).bind fun n =>
          if n < 9223372036854775808 then some (n : Int) else none
    else (parseDigits (c :: cs) 0).bind fun n =>
          if n < 9223372036854775808 then some (n : Int) else none

/-- Model of `getInt` (a decoded JSON object holds numbers as float64 only,
so the `int` and `int64` cases of the type switch never apply). -/
def getInt (m : Payload) (key : String) (fallback : Int) : Int :=
  match mapGet m key with
  | some (.num mant exp) => floatToInt mant exp
  | some (.str v) =>
    match atoi (trimSpace v) with
    | some parsed => parsed
    | none => fallback
  | _ => fallback

/-! ## Data model -/

/-- Value of `maxPlayersDefault`. -/
def maxPlayersDefault : Int := 10

/-- Value of `roomTTL.Milliseconds()`. -/
def roomTTLMillis : Int := 300000

/-- The `peer` struct: identifier and closed flag (the connection and the
write mutex are not modelled). -/
structure Peer where
  id : String
  closed : Bool
  deriving DecidableEq, Repr

/-- The `player` struct. -/
structure Player where
  PeerID : String
  Name : List Nat
  Ready : Bool
  IsHost : Bool
  deriving DecidableEq, Repr

/-- The `room` struct. -/
structure Room where
  RoomID : String
  RoomName : String
  Status : String
  MaxPlayers : Int
  CreatedAt : Int
  LastActive : Int
  Players : List Player
  deriving DecidableEq, Repr

/-- The `envelope` struct, with the payload already passed through
`parsePayload`. -/
structure Envelope where
  Typ : String
  Payload : Payload
  RequestID : String
  deriving DecidableEq, Repr

/-- The registry part of the `server` struct. -/
structure Server where
  peers : List (String × Peer)
  rooms : List (String × Room)
  peerToRoom : List (String × String)
  peerSeq : Nat
  deriving DecidableEq, Repr

/-- The registry `newServer` returns. -/
def newServer : Server := ⟨[], [], [], 0⟩

/-- The map `roomState(r)` builds. -/
structure RoomState where
  roomId : String
  roomName : String
  status : String
  maxPlayers : Int
  players : List Player
  deriving DecidableEq, Repr

/-- One entry of the list `listOpenRooms` builds. -/
structure RoomSummary where
  roomId : String
  roomName : String
  hostName : List Nat
  players : Nat
  maxPlayers : Int
  status : String
  deriving DecidableEq, Repr

/-- Payload maps of the messages the server sends, one constructor per
shape. -/
inductive OutPayload where
  | roomList (rooms : List RoomSummary)
  | selfRoom (selfPeerId : String) (room : RoomState)
  | roomRef (roomId : String)
  | roomFull (roomId : String) (currentPlayers : Nat) (maxPlayers : Int)
  | error (code message : String)
  | room (room : RoomState)
  | rename (peerId roomId : String) (name : List Nat)
  | chat (roomId peerId : String) (name text : List Nat) (sentAt : Int)
  | matchStart (roomId : String) (startedAt : Int)
  | input (peerId : String) (data : Payload)
  | shop (peerId roomId weaponId : String)
  | shopDone (peerId roomId : String) (done : Bool)
  | snapshot (data : Payload)
  deriving DecidableEq, Repr

/-- One text frame written to a peer connection: the receiving peer and the
envelope (`requestID = ""` stands for an omitted `requestId`). -/
structure Delivery where
  peer : String
  msgType : String
  payload : OutPayload
  requestID : String
  deriving DecidableEq, Repr

/-! ## Identifiers -/

/-- Digit of `strconv.FormatInt(_, 36)`. -/
def digit36 (d : Nat) : Char :=
  if d < 10 then Char.ofNat (48 + d) else Char.ofNat (87 + d)

/-- Base-36 digits of `n`, most significant first (`fuel` bounds the number
of digits). -/
def base36Digits : Nat → Nat → List Char → List Char
  | 0, _, acc => acc
  | fuel + 1, n, acc =>
    if n < 36 then digit36 n :: acc
    else base36Digits fuel (n / 36) (digit36 (n % 36) :: acc)

/-- Model of `strconv.FormatInt(i, 36)`. -/
def formatInt36 (i : Int) : List Char :=
  if i < 0 then '-' :: base36Digits (i.natAbs + 1) i.natAbs []
  else base36Digits (i.natAbs + 1) i.natAbs []

/-- The padding loop of `makeRoomID`: prefix `0` until six characters. -/
def padLeft6 (cs : List Char) : List Char :=
  List.replicate (6 - cs.length) '0' ++ cs

/-- Model of `makeRoomID`, from the value `rnd` drawn by
`rand.Int63n(36^6)` and the clock reading `nowMs`. -/
def makeRoomID (rnd : Nat) (nowMs : Int) : String :=
  let randPart := padLeft6 (formatInt36 rnd)
  let tail := formatInt36 nowMs
  let tail := if tail.length > 3 then tail.drop (tail.length - 3) else tail
  "room-" ++ String.mk randPart ++ String.mk tail

/-- Model of `makePeerID` for the incremented sequence value `n`. -/
def makePeerID (n : Nat) : String := "peer-" ++ toString n

/-- Model of `fmt.Sprintf("Player%d", n)`. -/
def playerN (n : Nat) : List Nat := goBytes ("Player" ++ toString n)

/-! ## Connection peer -/

/-- Model of `(*peer).send`: nothing for a closed peer, else one text frame
carrying the envelope. -/
def Peer.send (p : Peer) (msgType : String) (payload : OutPayload)
    (requestID : String) : List Delivery :=
  if p.closed then [] else [⟨p.id, msgType, payload, requestID⟩]

/-- Model of `(*peer).sendError`. -/
def Peer.sendError (p : Peer) (code message requestID : String) : List Delivery :=
  p.send "error" (.error code message) requestID

/-- The loop `for _, rp := range recipients { rp.send(msgType, payload, "") }`. -/
def sendEach (recipients : List Peer) (msgType : String) (payload : OutPayload) :
    List Delivery :=
  match recipients with
  | [] => []
  | p :: rest => p.send msgType payload "" ++ sendEach rest msgType payload

/-! ## Registry and room lifecycle -/

/-- The first player flagged host, if any (the `for ... if pl.IsHost ... break`
loops). -/
def firstHost : List Player → Option Player
  | [] => none
  | pl :: rest => if pl.IsHost then some pl else firstHost rest

/-- Model of the loop body of `listOpenRooms` for one room. -/
def openRoomSummary (r : Room) : Option RoomSummary :=
  if r.Status ≠ "lobby" ∨ (r.Players.length : Int) ≥ r.MaxPlayers then none
  else
    let hostName := match firstHost r.Players with
      | some pl => pl.Name
      | none => goBytes "Host"
    some ⟨r.RoomID, r.RoomName, hostName, r.Players.length, r.MaxPlayers, r.Status⟩

/-- Model of `listOpenRooms` (in the iteration order of the map). -/
def listOpenRooms (s : Server) : List RoomSummary :=
  s.rooms.filterMap (fun e => openRoomSummary e.2)

/-- Model of `roomState`. -/
def roomState (r : Room) : RoomState :=
  ⟨r.RoomID, r.RoomName, r.Status, r.MaxPlayers, r.Players⟩

/-- Model of `filterPlayers`. -/
def filterPlayers (players : List Player) (peerID : String) : List Player :=
  players.filter (fun p => decide (p.PeerID ≠ peerID))

/-- Model of `roomRecipientsLocked`. -/
def roomRecipientsLocked (s : Server) (r : Room) : List Peer :=
  r.Players.filterMap fun pl =>
    match mapGet s.peers pl.PeerID with
    | some p => if p.closed then none else some p
    | none => none

/-- Model of `broadcastRoomState`. -/
def broadcastRoomState (recipients : List Peer) (state : RoomState) : List Delivery :=
  sendEach recipients "room.state" (.room state)

/-- The host repair of `removePeer`: when no player is flagged host, the
first player is flagged. -/
def promoteHost (players : List Player) : List Player :=
  match firstHost players with
  | some _ => players
  | none =>
    match players with
    | [] => []
    | pl :: rest => { pl with IsHost := true } :: rest

/-- Model of `removePeer(peerID)`, with `now` the reading of the clock. -/
def removePeer (s : Server) (peerID : String) (now : Int) : Server × List Delivery :=
  let hasRoom := mapGet s.peerToRoom peerID
  let s1 : Server := { s with
    peers := mapDelete s.peers peerID
    peerToRoom := mapDelete s.peerToRoom peerID }
  match hasRoom with
  | none => (s1, [])
  | some roomID =>
    match mapGet s1.rooms roomID with
    | none => (s1, [])
    | some r =>
      let r1 : Room := { r with
        Players := filterPlayers r.Players peerID
        LastActive := now }
      if r1.Players.length = 0 then
        ({ s1 with rooms := mapDelete s1.rooms roomID }, [])
      else
        let r2 : Room := { r1 with Players := promoteHost r1.Players }
        let s2 : Server := { s1 with rooms := mapSet s1.rooms roomID r2 }
        (s2, broadcastRoomState (roomRecipientsLocked s2 r2) (roomState r2))

/-- Truncation `if len(x) > n { x = x[:n] }`. -/
def truncBytes (n : Nat) (x : List Nat) : List Nat :=
  if x.length > n then x.take n else x

/-- Index and record of the first player with the given peer id (the lookup
loop of `handleMessage`). -/
def findPlayer : List Player → String → Option (Nat × Player)
  | [], _ => none
  | pl :: rest, peerID =>
    if pl.PeerID = peerID then some (0, pl)
    else (findPlayer rest peerID).map fun ip => (ip.1 + 1, ip.2)

/-- Number of ready players (the counting loop of `match.start`). -/
def readyCount (players : List Player) : Nat :=
  players.countP (fun rp => rp.Ready)

/-- The `room.create` branch of `handleMessage`. -/
def handleCreate (s : Server) (p : Peer) (peerID : String) (env : Envelope)
    (rnd : Nat) (clock : Nat → Int) : Server × List Delivery :=
  let roomName := getString env.Payload "roomName" "LAN Room"
  let hostName := truncBytes 16 (goBytes (getString env.Payload "hostName" "Player1"))
  let maxPlayers := getInt env.Payload "maxPlayers" maxPlayersDefault
  let maxPlayers := if maxPlayers < 2 then 2 else maxPlayers
  let maxPlayers := if maxPlayers > maxPlayersDefault then maxPlayersDefault else maxPlayers
  let r : Room := {
    RoomID := makeRoomID (rnd % 36 ^ 6) (clock 0)
    RoomName := roomName
    Status := "lobby"
    MaxPlayers := maxPlayers
    CreatedAt := clock 1
    LastActive := clock 2
    Players := [{ PeerID := peerID, Name := hostName, Ready := true, IsHost := true }] }
  let s1 : Server := { s with
    peerToRoom := mapSet s.peerToRoom peerID r.RoomID
    rooms := mapSet s.rooms r.RoomID r }
  (s1, p.send "room.created" (.selfRoom peerID (roomState r)) env.RequestID)

/-- The `room.join` branch of `handleMessage`. -/
def handleJoin (s : Server) (p : Peer) (peerID : String) (env : Envelope)
    (clock : Nat → Int) : Server × List Delivery :=
  let roomID := getString env.Payload "roomId" ""
  let name := truncBytes 16 (goBytes (getString env.Payload "playerName" ""))
  match mapGet s.rooms roomID with
  | none => (s, p.send "room.not_found" (.roomRef roomID) env.RequestID)
  | some r =>
    if (r.Players.length : Int) ≥ r.MaxPlayers then
      (s, p.send "room.full" (.roomFull roomID r.Players.length r.MaxPlayers) env.RequestID)
    else if r.Status ≠ "lobby" then
      (s, p.sendError "forbidden" "Match already started" env.RequestID)
    else
      let name := if name = [] then playerN (r.Players.length + 1) else name
      let r1 : Room := { r with
        Players := r.Players ++ [{ PeerID := peerID, Name := name, Ready := false, IsHost := false }]
        LastActive := clock 0 }
      let s1 : Server := { s with
        peerToRoom := mapSet s.peerToRoom peerID roomID
        rooms := mapSet s.rooms roomID r1 }
      (s1, p.send "room.joined" (.selfRoom peerID (roomState r1)) env.RequestID
            ++ broadcastRoomState (roomRecipientsLocked s1 r1) (roomState r1))

/-- The relay branch (`game.input`, `shop.buy`, `shop.sell`, `shop.done`)
of `handleMessage`, for the member record `pl` of the caller in room `r`. -/
def handleRelay (s : Server) (p : Peer) (peerID roomID : String) (r : Room)
    (pl : Player) (env : Envelope) : Server × List Delivery :=
  if pl.IsHost then
    (s, p.sendError "forbidden" "Host should apply actions locally" env.RequestID)
  else
    let hostPeerID := match firstHost r.Players with
      | some rp => rp.PeerID
      | none => ""
    match mapGet s.peers hostPeerID with
    | none => (s, p.sendError "room_not_found" "Host unavailable" env.RequestID)
    | some hostPeer =>
      if env.Typ = "game.input" then
        (s, hostPeer.send "game.input" (.input peerID env.Payload) "")
      else if env.Typ = "shop.buy" ∨ env.Typ = "shop.sell" then
        (s, hostPeer.send env.Typ
              (.shop peerID roomID (getString env.Payload "weaponId" "")) "")
      else if env.Typ = "shop.done" then
        (s, hostPeer.send "shop.done"
              (.shopDone peerID roomID (getBool env.Payload "done")) "")
      else (s, [])

/-- The part of `handleMessage` after the first `switch`: the caller's room
is resolved through the index and the message is handled for the caller's
player record. -/
def handleMember (s : Server) (p : Peer) (peerID : String) (env : Envelope)
    (clock : Nat → Int) : Server × List Delivery :=
  let roomID := (mapGet s.peerToRoom peerID).getD ""
  match mapGet s.rooms roomID with
  | none => (s, p.sendError "room_not_found" "Room no longer exists" env.RequestID)
  | some r =>
    match findPlayer r.Players peerID with
    | none => (s, p.sendError "forbidden" "Unknown player" env.RequestID)
    | some (playerIdx, pl) =>
      if env.Typ = "peer.ready" then
        let r1 : Room := { r with
          Players := r.Players.set playerIdx { pl with Ready := getBool env.Payload "ready" }
          LastActive := clock 0 }
        let s1 : Server := { s with rooms := mapSet s.rooms roomID r1 }
        (s1, broadcastRoomState (roomRecipientsLocked s1 r1) (roomState r1))
      else if env.Typ = "peer.rename" then
        let name := truncBytes 16 (goBytes (getString env.Payload "name" ""))
        let name := if name = [] then playerN (playerIdx + 1) else name
        let r1 : Room := { r with
          Players := r.Players.set playerIdx { pl with Name := name }
          LastActive := clock 0 }
        let s1 : Server := { s with rooms := mapSet s.rooms roomID r1 }
        let recipients := roomRecipientsLocked s1 r1
        (s1, sendEach recipients "peer.rename" (.rename peerID roomID name)
              ++ broadcastRoomState recipients (roomState r1))
      else if env.Typ = "chat.msg" then
        let text := goBytes (getString env.Payload "text" "")
        if text = [] then (s, [])
        else
          let text := truncBytes 200 text
          (s, sendEach (roomRecipientsLocked s r) "chat.msg"
                (.chat roomID peerID pl.Name text (clock 0)))
      else if env.Typ = "match.start" then
        if ¬ pl.IsHost then
          (s, p.sendError "forbidden" "Only host can start match" env.RequestID)
        else if ¬ getBool env.Payload "forceStart" ∧ readyCount r.Players < 2 then
          (s, p.sendError "bad_request" "Need at least 2 ready players" env.RequestID)
        else
          let r1 : Room := { r with Status := "in-game", LastActive := clock 0 }
          let s1 : Server := { s with rooms := mapSet s.rooms roomID r1 }
          let recipients := roomRecipientsLocked s1 r1
          (s1, sendEach recipients "match.start" (.matchStart roomID (clock 1))
                ++ broadcastRoomState recipients (roomState r1))
      else if env.Typ = "game.input" ∨ env.Typ = "shop.buy" ∨ env.Typ = "shop.sell"
          ∨ env.Typ = "shop.done" then
        handleRelay s p peerID roomID r pl env
      else if env.Typ = "game.snapshot" then
        if ¬ pl.IsHost then
          (s, p.sendError "forbidden" "Only host can send snapshots" env.RequestID)
        else
          let recipients := r.Players.filterMap fun rp =>
            if rp.PeerID = peerID then none else mapGet s.peers rp.PeerID
          let r1 : Room := { r with LastActive := clock 0 }
          ({ s with rooms := mapSet s.rooms roomID r1 },
            sendEach recipients "game.snapshot" (.snapshot env.Payload))
      else
        (s, p.sendError "bad_request" ("Unknown type: " ++ env.Typ) env.RequestID)

/-- Model of `handleMessage(peerID, env)`. `rnd` is the value drawn by
`rand.Int63n` and `clock k` the `k`-th reading of `time.Now().UnixMilli()`
during the call. The result is the new registry and the frames written. -/
def handleMessage (s : Server) (peerID : String) (env : Envelope)
    (rnd : Nat) (clock : Nat → Int) : Server × List Delivery :=
  match mapGet s.peers peerID with
  | none => (s, [])
  | some p =>
    if env.Typ = "room.list.request" then
      (s, p.send "room.list.response" (.roomList (listOpenRooms s)) env.RequestID)
    else if env.Typ = "room.create" then handleCreate s p peerID env rnd clock
    else if env.Typ = "room.join" then handleJoin s p peerID env clock
    else if env.Typ = "room.leave" then removePeer s peerID (clock 0)
    else handleMember s p peerID env clock

/-- One visit of the loop of `cleanupExpiredRooms` at room `r` stored under
`roomID`. Clock readings are millisecond timestamps far from the int64
bounds, so the subtraction is taken exactly. -/
def sweepRoom (now : Int) (s : Server) (roomID : String) (r : Room) : Server :=
  if r.Players.length = 0 ∨ now - r.LastActive > roomTTLMillis then
    { s with
      peerToRoom := r.Players.foldl (fun idx pl => mapDelete idx pl.PeerID) s.peerToRoom
      rooms := mapDelete s.rooms roomID }
  else s

/-- One tick of `cleanupExpiredRooms` at clock reading `now`: every room of
the map is visited once. -/
def cleanupExpiredRooms (now : Int) (s : Server) : Server :=
  s.rooms.foldl (fun acc e => sweepRoom now acc e.1 e.2) s

/-- Registration of a freshly upgraded connection in `handleWS`. -/
def registerPeer (s : Server) : Server :=
  let n := (s.peerSeq + 1) % 2 ^ 64
  { s with
    peerSeq := n
    peers := mapSet s.peers (makePeerID n) ⟨makePeerID n, false⟩ }

/-! ## Runs of the server -/

/-- What can happen to the registry: a connection is registered, a message of
a connection is handled, a connection is torn down, the reaper ticks. -/
inductive Event where
  | register
  | message (peerID : String) (env : Envelope) (rnd : Nat) (clock : Nat → Int)
  | remove (peerID : String) (now : Int)
  | sweep (now : Int)

/-- Effect of one event on the registry. -/
def step (s : Server) : Event → Server
  | .register => registerPeer s
  | .message peerID env rnd clock => (handleMessage s peerID env rnd clock).1
  | .remove peerID now => (removePeer s peerID now).1
  | .sweep now => cleanupExpiredRooms now s

/-- Registry after a sequence of events. -/
def run (s : Server) (events : List Event) : Server :=
  events.foldl step s

/-- States reachable from the empty registry, every event being allowed by
`ok` in the state it happens in. -/
inductive ReachableBy (ok : Server → Event → Prop) : Server → Prop where
  | init : ReachableBy ok newServer
  | step (s : Server) (e : Event) : ReachableBy ok s → ok s e → ReachableBy ok (step s e)

/-- States reachable from the empty registry by any sequence of events. -/
def Reachable (s : Server) : Prop := ReachableBy (fun _ _ => True) s

/-- Shapes of the registry after one event, in terms of the registry before
it: every event leads to one of them (`step_transition`). -/
inductive Transition (s : Server) : Event → Server → Prop where
  | idle (e : Event) : Transition s e s
  | registered : Transition s .register (registerPeer s)
  | created (peerID : String) (env : Envelope) (rnd : Nat) (clock : Nat → Int)
      (p : Peer) (k : String) (r : Room) (pl : Player) :
      mapGet s.peers peerID = some p → env.Typ = "room.create" →
      k = makeRoomID (rnd % 36 ^ 6) (clock 0) → r.RoomID = k → r.Status = "lobby" →
      2 ≤ r.MaxPlayers → r.MaxPlayers ≤ 10 →
      r.Players = [pl] → pl.PeerID = peerID → pl.IsHost = true →
      Transition s (.message peerID env rnd clock)
        { s with
          peerToRoom := mapSet s.peerToRoom peerID k
          rooms := mapSet s.rooms k r }
  | joined (peerID : String) (env : Envelope) (rnd : Nat) (clock : Nat → Int)
      (p : Peer) (r : Room) (pl : Player) :
      mapGet s.peers peerID = some p → env.Typ = "room.join" →
      mapGet s.rooms (getString env.Payload "roomId" "") = some r →
      (r.Players.length : Int) < r.MaxPlayers → r.Status = "lobby" →
      pl.PeerID = peerID → pl.IsHost = false →
      Transition s (.message peerID env rnd clock)
        { s with
          peerToRoom := mapSet s.peerToRoom peerID (getString env.Payload "roomId" "")
          rooms := (mapSet s.rooms (getString env.Payload "roomId" "")
            { r with Players := r.Players ++ [pl], LastActive := clock 0 }) }
  | unindexed (e : Event) (peerID : String) :
      (mapGet s.peerToRoom peerID = none ∨
        ∃ k, mapGet s.peerToRoom peerID = some k ∧ mapGet s.rooms k = none) →
      Transition s e
        { s with
          peers := mapDelete s.peers peerID
          peerToRoom := mapDelete s.peerToRoom peerID }
  | emptied (e : Event) (peerID k : String) (r : Room) :
      mapGet s.peerToRoom peerID = some k → mapGet s.rooms k = some r →
      filterPlayers r.Players peerID = [] →
      Transition s e
        { s with
          peers := mapDelete s.peers peerID
          peerToRoom := mapDelete s.peerToRoom peerID
          rooms := mapDelete s.rooms k }
  | departed (e : Event) (peerID k : String) (r : Room) (now : Int) :
      mapGet s.peerToRoom peerID = some k → mapGet s.rooms k = some r →
      filterPlayers r.Players peerID ≠ [] →
      Transition s e
        { s with
          peers := mapDelete s.peers peerID
          peerToRoom := mapDelete s.peerToRoom peerID
          rooms := (mapSet s.rooms k
            { r with
              Players := promoteHost (filterPlayers r.Players peerID)
              LastActive := now }) }
  | edited (e : Event) (k : String) (r r1 : Room) :
      mapGet s.rooms k = some r →
      r1.Players.map (fun pl => pl.PeerID) = r.Players.map (fun pl => pl.PeerID) →
      r1.Players.map (fun pl => pl.IsHost) = r.Players.map (fun pl => pl.IsHost) →
      r1.MaxPlayers = r.MaxPlayers → r1.RoomID = r.RoomID →
      (r1.Status = r.Status ∨ r1.Status = "in-game") →
      Transition s e { s with rooms := mapSet s.rooms k r1 }
  | swept (now : Int) : Transition s (.sweep now) (cleanupExpiredRooms now s)

/-- Every `room.join` comes from a peer that the named room does not list. -/
def joinsFresh (s : Server) : Event → Bool
  | .message peerID env _ _ =>
    if env.Typ = "room.join" then
      match mapGet s.rooms (getString env.Payload "roomId" "") with
      | some r => !(r.Players.any fun pl => decide (pl.PeerID = peerID))
      | none => true
    else true
  | _ => true

/-- Every `room.create` and `room.join` comes from a peer that no registered
room lists. -/
def entersFresh (s : Server) : Event → Bool
  | .message peerID env _ _ =>
    if env.Typ = "room.create" ∨ env.Typ = "room.join" then
      s.rooms.all fun e => !(e.2.Players.any fun pl => decide (pl.PeerID = peerID))
    else true
  | _ => true

/-- The eviction test of the reaper at clock reading `now`. -/
def roomExpired (now : Int) (r : Room) : Prop :=
  r.Players.length = 0 ∨ now - r.LastActive > roomTTLMillis

instance roomExpiredDecidable (now : Int) (r : Room) : Decidable (roomExpired now r) :=
  inferInstanceAs (Decidable (r.Players.length = 0 ∨ now - r.LastActive > roomTTLMillis))

/-- The index agrees with the rooms: room ids are stored once, and every
player record of a stored room belongs to a peer that the index maps to that
room. -/
def IndexInv (s : Server) : Prop :=
  (s.rooms.map Prod.fst).Nodup ∧
  ∀ x ∈ s.rooms, ∀ pl ∈ x.2.Players, mapGet s.peerToRoom pl.PeerID = some x.1

/-- Checks that every event of a run is allowed by `ok` in the state it
happens in. -/
def runAllowed (ok : Server → Event → Bool) : Server → List Event → Bool
  | _, [] => true
  | s, e :: es => ok s e && runAllowed ok (step s e) es

/-- Every room id generated by a `room.create` of a registered caller is not
yet the id of a stored room. -/
def freshIds (s : Server) : Event → Bool
  | .message peerID env rnd clock =>
    if env.Typ = "room.create" ∧ mapGet s.peers peerID ≠ none then
      (mapGet s.rooms (makeRoomID (rnd % 36 ^ 6) (clock 0))).isNone
    else true
  | _ => true

/-- The index is sound: room ids are stored once and none is empty, and every
index entry maps a registered peer to a stored room that lists it. -/
def IndexSound (s : Server) : Prop :=
  (s.rooms.map Prod.fst).Nodup ∧
  (∀ x ∈ s.rooms, x.1 ≠ "") ∧
  ∀ p k, mapGet s.peerToRoom p = some k →
    mapGet s.peers p ≠ none ∧
    ∃ r, mapGet s.rooms k = some r ∧ ∃ pl ∈ r.Players, pl.PeerID = p

/-- The envelope types `handleMessage` has a case for. -/
def knownTypes : List String :=
  ["room.list.request", "room.create", "room.join", "room.leave", "peer.ready",
   "peer.rename", "chat.msg", "match.start", "game.input", "shop.buy", "shop.sell",
   "shop.done", "game.snapshot"]

/-- Number of players flagged host. -/
def hostCount (players : List Player) : Nat :=
  players.countP (fun pl => pl.IsHost)

/-! ## Sample runs -/

namespace Sample

/-- A clock that reads 1700000000000 ms at every call. -/
def clock : Nat → Int := fun _ => 1700000000000

/-- Room id generated for the draw 5 at that time. -/
def roomID : String := "room-000005v28"

/-- A `room.create` for a two-player room. -/
def createEnv : Envelope :=
  ⟨"room.create", [("roomName", .str "Duel"), ("hostName", .str "Ann"),
    ("maxPlayers", .num 2 0)], "c1"⟩

/-- A `room.join` of the sample room. -/
def joinEnv (name : String) : Envelope :=
  ⟨"room.join", [("roomId", .str roomID), ("playerName", .str name)], "j1"⟩

/-- A `match.start`. -/
def startEnv (force : Bool) : Envelope :=
  ⟨"match.start", [("forceStart", .bool force)], "m1"⟩

/-- Three connections, `peer-1` creates the room, `peer-2` joins it. -/
def lobbyEvents : List Event :=
  [.register, .register, .register,
   .message "peer-1" createEnv 5 clock,
   .message "peer-2" (joinEnv "Bob") 0 clock]

/-- The sample room after `lobbyEvents`: full, in the lobby. -/
def lobbyRoom : Room :=
  { RoomID := roomID, RoomName := "Duel", Status := "lobby", MaxPlayers := 2,
    CreatedAt := 1700000000000, LastActive := 1700000000000,
    Players := [⟨"peer-1", [65, 110, 110], true, true⟩,
                ⟨"peer-2", [66, 111, 98], false, false⟩] }

/-- The registry after `lobbyEvents`. -/
def lobby : Server :=
  { peers := [("peer-1", ⟨"peer-1", false⟩), ("peer-2", ⟨"peer-2", false⟩),
              ("peer-3", ⟨"peer-3", false⟩)],
    rooms := [(roomID, lobbyRoom)],
    peerToRoom := [("peer-1", roomID), ("peer-2", roomID)],
    peerSeq := 3 }

/-- One connection creates the sample room and then joins it. -/
def rejoinEvents : List Event :=
  [.register,
   .message "peer-1" createEnv 5 clock,
   .message "peer-1" (joinEnv "Ann") 0 clock]

/-- One connection creates two rooms in a row. -/
def twoRoomsEvents : List Event :=
  [.register,
   .message "peer-1" createEnv 5 clock,
   .message "peer-1" createEnv 6 clock]

/-- One connection creates a room at time 0 and another one at time 200000. -/
def staleRoomEvents : List Event :=
  [.register,
   .message "peer-1" createEnv 5 (fun _ => 0),
   .message "peer-1" createEnv 6 (fun _ => 200000)]

/-- An envelope of a type the dispatcher has no case for. -/
def pingEnv : Envelope := ⟨"ping", [], "x"⟩

/-- A `game.input`. -/
def inputEnv : Envelope := ⟨"game.input", [("angle", .num 45 0)], "g1"⟩

/-- The sample room right after its creation by `peer-1`. -/
def freshRoom : Room :=
  { lobbyRoom with Players := [⟨"peer-1", [65, 110, 110], true, true⟩] }

/-- The registry with three connections and the freshly created sample
room. -/
def created : Server :=
  { lobby with rooms := [(roomID, freshRoom)], peerToRoom := [("peer-1", roomID)] }

/-- The sample lobby with a third slot, after the match has started. -/
def inGameOpen : Server :=
  { lobby with
    rooms := [(roomID, { lobbyRoom with Status := "in-game", MaxPlayers := 3 })] }

/-- The registry after `lobbyEvents` and a forced `match.start` of the host. -/
def inGame : Server :=
  { lobby with rooms := [(roomID, { lobbyRoom with Status := "in-game" })] }

/-- A `peer.ready` setting the ready flag. -/
def readyEnv : Envelope := ⟨"peer.ready", [("ready", .bool true)], "r1"⟩

/-- A `match.start` without a `forceStart` field. -/
def plainStartEnv : Envelope := ⟨"match.start", [], "m2"⟩

/-- The sample room after `peer-2` has declared itself ready: two ready
players. -/
def readyRoom : Room :=
  { lobbyRoom with
    Players := [⟨"peer-1", [65, 110, 110], true, true⟩,
                ⟨"peer-2", [66, 111, 98], true, false⟩] }

/-- The registry after `lobbyEvents` and the `peer.ready` of `peer-2`. -/
def readyLobby : Server :=
  { lobby with rooms := [(roomID, readyRoom)] }

/-- A `room.join` of the sample room that gives no player name. -/
def anonJoinEnv : Envelope :=
  ⟨"room.join", [("roomId", .str roomID)], "j3"⟩

end Sample

/-! ### Codec lemmas -/

theorem readFull_append (a b : List Nat) :
    readFull a.length (a ++ b) = .ok (a, b) := by
  simp [readFull]

theorem readFull_append_of_length {n : Nat} (a b : List Nat) (h : a.length = n) :
    readFull n (a ++ b) = .ok (a, b) := by
  subst h; exact readFull_append a b

theorem length_putUint (n v : Nat) : (putUint n v).length = n := by
  induction n with
  | zero => rfl
  | succ n ih => simp [putUint, ih]

theorem foldl_getUint (bs : List Nat) (acc : Nat) :
    bs.foldl (fun acc b => acc * 256 + b) acc
      = acc * 256 ^ bs.length + getUint bs := by
  induction bs generalizing acc with
  | nil => simp [getUint]
  | cons b bs ih =>
    simp only [List.foldl_cons, getUint, List.length_cons]
    rw [ih (acc * 256 + b), ih (0 * 256 + b)]
    simp only [getUint]
    ring

theorem getUint_putUint (n v : Nat) : getUint (putUint n v) = v % 256 ^ n := by
  induction n with
  | zero => simp [putUint, getUint, Nat.mod_one]
  | succ n ih =>
    have h1 : getUint (putUint (n + 1) v)
        = (v / 256 ^ n % 256) * 256 ^ n + getUint (putUint n v) := by
      simp only [putUint, getUint, List.foldl_cons]
      rw [foldl_getUint, length_putUint]
      simp [getUint]
    rw [h1, ih, pow_succ, Nat.mod_mul, Nat.add_comm, Nat.mul_comm]

theorem xorMask_xorMask (mask : List Nat) (i : Nat) (p : List Nat) :
    xorMask mask i (xorMask mask i p) = p := by
  induction p generalizing i with
  | nil => rfl
  | cons b bs ih =>
    simp only [xorMask, ih, Nat.xor_assoc, Nat.xor_self, Nat.xor_zero]

theorem length_xorMask (mask : List Nat) (i : Nat) (p : List Nat) :
    (xorMask mask i p).length = p.length := by
  induction p generalizing i with
  | nil => rfl
  | cons b bs ih => simp [xorMask, ih]

theorem opcode_bits : ∀ op, op < 16 →
    ((0x80 ||| op) % 256) &&& 0x0F = op := by decide

theorem small_length_bits : ∀ l, l < 126 →
    (l % 256) &&& 0x80 = 0 ∧ (l % 256) &&& 0x7F = l := by decide

theorem readBody_plain (opcode : Nat) (payload rest : List Nat) :
    readBody opcode false payload.length (payload ++ rest)
      = .ok (opcode, payload, rest) := by
  cases payload with
  | nil => simp [readBody]
  | cons b bs =>
    have h := readFull_append (b :: bs) rest
    simp only [readBody, Bool.false_eq_true, if_false, List.length_cons,
      Nat.zero_lt_succ, if_true] at h ⊢
    rw [h]

theorem readBody_masked (opcode : Nat) (key payload rest : List Nat)
    (hk : key.length = 4) :
    readBody opcode true payload.length (key ++ (xorMask key 0 payload ++ rest))
      = .ok (opcode, payload, rest) := by
  have h1 := readFull_append_of_length key (xorMask key 0 payload ++ rest) hk
  cases payload with
  | nil =>
    simp only [xorMask, List.nil_append] at h1
    simp [readBody, h1, xorMask]
  | cons b bs =>
    have h2 := readFull_append_of_length (xorMask key 0 (b :: bs)) rest
      (length_xorMask key 0 (b :: bs))
    simp only [readBody, if_true, h1, List.length_cons, Nat.zero_lt_succ] at h2 ⊢
    rw [h2]
    simp [xorMask_xorMask]

theorem readWSFrame_of_header (b0 b1 : Nat) (tail : List Nat) :
    readWSFrame (b0 :: b1 :: tail) =
      (if b1 &&& 0x7F = 126 then
        match readFull 2 tail with
        | .error e => .error e
        | .ok (ext, input2) =>
          readBody (b0 &&& 0x0F) (decide ((b1 &&& 0x80) ≠ 0)) (getUint ext) input2
      else if b1 &&& 0x7F = 127 then
        match readFull 8 tail with
        | .error e => .error e
        | .ok (ext, input2) =>
          if getUint ext > maxInt32 then .error .frameTooLarge
          else readBody (b0 &&& 0x0F) (decide ((b1 &&& 0x80) ≠ 0)) (getUint ext) input2
      else readBody (b0 &&& 0x0F) (decide ((b1 &&& 0x80) ≠ 0)) (b1 &&& 0x7F) tail) := by
  simp [readWSFrame, readFull]

/-! ### Map lemmas -/

section MapLemmas
variable {V : Type}

theorem mapGet_mem {m : List (String × V)} {k : String} {v : V}
    (h : mapGet m k = some v) : (k, v) ∈ m := by
  induction m with
  | nil => simp [mapGet] at h
  | cons e m ih =>
    obtain ⟨k1, v1⟩ := e
    by_cases hk : k1 = k
    · simp [mapGet, hk] at h
      simp [hk, h]
    · simp only [mapGet, hk, if_false] at h
      exact List.mem_cons_of_mem _ (ih h)

theorem mem_mapSet {m : List (String × V)} {k : String} {v : V} {e : String × V}
    (h : e ∈ mapSet m k v) : e ∈ m ∨ e = (k, v) := by
  induction m with
  | nil => simp [mapSet] at h; exact Or.inr h
  | cons e1 m ih =>
    obtain ⟨k1, v1⟩ := e1
    by_cases hk : k1 = k
    · simp only [mapSet, hk, if_true, List.mem_cons] at h
      rcases h with h | h
      · exact Or.inr h
      · exact Or.inl (List.mem_cons_of_mem _ h)
    · simp only [mapSet, hk, if_false, List.mem_cons] at h
      rcases h with h | h
      · exact Or.inl (by simp [h])
      · rcases ih h with h | h
        · exact Or.inl (List.mem_cons_of_mem _ h)
        · exact Or.inr h

theorem mem_mapDelete {m : List (String × V)} {k : String} {e : String × V} :
    e ∈ mapDelete m k ↔ e ∈ m ∧ e.1 ≠ k := by
  simp [mapDelete]

theorem mapGet_mapSet (m : List (String × V)) (k k2 : String) (v : V) :
    mapGet (mapSet m k v) k2 = if k = k2 then some v else mapGet m k2 := by
  induction m with
  | nil => simp [mapSet, mapGet]
  | cons e m ih =>
    obtain ⟨k1, v1⟩ := e
    by_cases hk : k1 = k
    · subst hk
      by_cases hk2 : k1 = k2 <;> simp [mapSet, mapGet, hk2]
    · by_cases hk2 : k1 = k2
      · subst hk2
        have : ¬ k = k1 := fun h => hk h.symm
        simp [mapSet, mapGet, hk, this]
      · simp [mapSet, mapGet, hk, hk2, ih]

theorem mapGet_mapSet_self (m : List (String × V)) (k : String) (v : V) :
    mapGet (mapSet m k v) k = some v := by
  simp [mapGet_mapSet]

theorem mapDelete_cons (k1 : String) (v1 : V) (m : List (String × V)) (k : String) :
    mapDelete ((k1, v1) :: m) k
      = if k1 = k then mapDelete m k else (k1, v1) :: mapDelete m k := by
  by_cases hk : k1 = k <;> simp [mapDelete, List.filter_cons, hk]

theorem mapGet_mapDelete (m : List (String × V)) (k k2 : String) :
    mapGet (mapDelete m k) k2 = if k = k2 then none else mapGet m k2 := by
  induction m with
  | nil => simp [mapDelete, mapGet]
  | cons e m ih =>
    obtain ⟨k1, v1⟩ := e
    rw [mapDelete_cons]
    by_cases hk : k1 = k
    · subst hk
      simp only [if_true]
      rw [ih]
      by_cases hk2 : k1 = k2 <;> simp [mapGet, hk2]
    · by_cases hk2 : k1 = k2
      · subst hk2
        have : ¬ k = k1 := fun h => hk h.symm
        simp [mapGet, hk, this]
      · simp [mapGet, hk, hk2, ih]

theorem mapGet_mapDelete_ne (m : List (String × V)) {k k2 : String} (h : k ≠ k2) :
    mapGet (mapDelete m k) k2 = mapGet m k2 := by
  simp [mapGet_mapDelete, h]

end MapLemmas

/-! ### Claims about the codec -/

/-- C1. Frame round trip: for every opcode below 16, every payload of at most
`2^31 - 1` bytes and every trailing byte sequence `rest`, decoding the bytes
`writeWSFrame` produced, followed by `rest`, returns the opcode and the
payload without error and leaves exactly `rest` unread. -/
theorem readWSFrame_writeWSFrame (opcode : Nat) (payload rest : List Nat)
    (hop : opcode < 16) (hlen : payload.length ≤ maxInt32) :
    readWSFrame (writeWSFrame opcode payload ++ rest)
      = .ok (opcode, payload, rest) := by
  have hb0 := opcode_bits opcode hop
  unfold writeWSFrame
  by_cases h1 : payload.length < 126
  · obtain ⟨hm, hl⟩ := small_length_bits payload.length h1
    simp only [h1, if_true, List.cons_append, List.nil_append]
    rw [readWSFrame_of_header]
    have hne1 : ¬ (payload.length = 126) := by omega
    have hne2 : ¬ (payload.length = 127) := by omega
    simp only [hl, hm, hb0, hne1, hne2, if_false, ne_eq, not_true_eq_false, decide_False]
    exact readBody_plain opcode payload rest
  · by_cases h2 : payload.length ≤ 65535
    · simp only [h1, h2, if_true, if_false, List.cons_append, List.nil_append,
        List.append_assoc]
      rw [readWSFrame_of_header]
      have hext := readFull_append_of_length (putUint 2 (payload.length % 65536))
        (payload ++ rest) (length_putUint 2 _)
      have hval : getUint (putUint 2 (payload.length % 65536)) = payload.length := by
        rw [getUint_putUint]; omega
      simp only [hb0, hext, hval]
      simpa using readBody_plain opcode payload rest
    · simp only [h1, h2, if_false, List.cons_append, List.nil_append,
        List.append_assoc]
      rw [readWSFrame_of_header]
      have hext := readFull_append_of_length (putUint 8 (payload.length % 2 ^ 64))
        (payload ++ rest) (length_putUint 8 _)
      have hval : getUint (putUint 8 (payload.length % 2 ^ 64)) = payload.length := by
        rw [getUint_putUint]; unfold maxInt32 at hlen; omega
      have hbig : ¬ (payload.length > maxInt32) := by omega
      simp only [hb0, hext, hval, hbig]
      simpa using readBody_plain opcode payload rest

/-- Witness of C1 on the 64-bit length tier: a text frame (opcode 1) carrying
70000 zero bytes, followed by two more bytes. -/
theorem readWSFrame_writeWSFrame_witness :
    1 < 16 ∧ (List.replicate 70000 0).length ≤ maxInt32 ∧
    readWSFrame (writeWSFrame 1 (List.replicate 70000 0) ++ [7, 9])
      = .ok (1, List.replicate 70000 0, [7, 9]) :=
  ⟨by decide, by rw [List.length_replicate]; decide,
    readWSFrame_writeWSFrame 1 (List.replicate 70000 0) [7, 9] (by decide)
      (by rw [List.length_replicate]; decide)⟩

theorem mask_bits : ∀ code, code < 128 →
    (0x80 ||| code) &&& 0x80 ≠ 0 ∧ (0x80 ||| code) &&& 0x7F = code := by decide

theorem nibble_bits : ∀ hi, hi < 16 → ∀ op, op < 16 → (16 * hi + op) &&& 0x0F = op := by
  decide

theorem xorMask_of_masked (key : List Nat) :
    ∀ (j : Nat) (body payload : List Nat), body.length = payload.length →
      (∀ i, i < payload.length →
        body.getD i 0 = payload.getD i 0 ^^^ key.getD ((j + i) % 4) 0) →
      xorMask key j body = payload := by
  intro j body
  induction body generalizing j with
  | nil =>
    intro payload hlen _
    cases payload with
    | nil => rfl
    | cons p ps => simp at hlen
  | cons b bs ih =>
    intro payload hlen hb
    cases payload with
    | nil => simp at hlen
    | cons p ps =>
      have h0 := hb 0 (by simp)
      simp only [List.getD_cons_zero, Nat.add_zero] at h0
      have htail : xorMask key (j + 1) bs = ps := by
        apply ih (j + 1) ps (by simpa using hlen)
        intro i hi
        have := hb (i + 1) (by simpa using hi)
        simp only [List.getD_cons_succ] at this
        rw [this]
        congr 3
        omega
      simp only [xorMask, h0, htail, Nat.xor_assoc, Nat.xor_self, Nat.xor_zero]

theorem readBody_masked_body (opcode : Nat) (key body payload rest : List Nat)
    (hk : key.length = 4) (hlen : body.length = payload.length)
    (hbody : ∀ i, i < payload.length →
      body.getD i 0 = payload.getD i 0 ^^^ key.getD (i % 4) 0) :
    readBody opcode true payload.length (key ++ (body ++ rest))
      = .ok (opcode, payload, rest) := by
  have hx : xorMask key 0 body = payload :=
    xorMask_of_masked key 0 body payload hlen (by simpa using hbody)
  have h1 := readFull_append_of_length key (body ++ rest) hk
  cases payload with
  | nil =>
    have hb : body = [] := List.length_eq_zero.mp hlen
    subst hb
    simp only [List.nil_append] at h1
    simp [readBody, h1, xorMask]
  | cons p ps =>
    have h2 := readFull_append_of_length body rest hlen
    simp only [readBody, if_true, h1, List.length_cons, Nat.zero_lt_succ] at h2 ⊢
    rw [h2]
    simp [hx]

/-- C2. Masked decode: a frame whose first byte carries any FIN/RSV bits `hi`
and the opcode in its low four bits, whose second byte has the MASK bit and a
length code, followed by a correct length encoding of the payload length, a
4-byte key `key` and a body `body` of the payload's length with
`body[i] = payload[i] XOR key[i mod 4]` at every index, decodes to the opcode
and the payload without error (and leaves the bytes after the frame
unread). -/
theorem readWSFrame_maskedFrame (hi opcode code : Nat)
    (ext key body payload rest : List Nat)
    (hhi : hi < 16) (hop : opcode < 16) (hk : key.length = 4)
    (hlen : payload.length ≤ maxInt32)
    (henc : IsLengthEncoding code ext payload.length)
    (hblen : body.length = payload.length)
    (hbody : ∀ i, i < payload.length →
      body.getD i 0 = payload.getD i 0 ^^^ key.getD (i % 4) 0) :
    readWSFrame ((16 * hi + opcode) :: (0x80 ||| code) :: (ext ++ (key ++ (body ++ rest))))
      = .ok (opcode, payload, rest) := by
  have hb0 := nibble_bits hi hhi opcode hop
  have hread := readBody_masked_body opcode key body payload rest hk hblen hbody
  rw [readWSFrame_of_header]
  rcases henc with ⟨hc, hext, hn⟩ | ⟨hc, hext, hn⟩ | ⟨hc, hext, hn⟩
  · obtain ⟨hm, hl⟩ := mask_bits code (by omega)
    have hne1 : ¬ (code = 126) := by omega
    have hne2 : ¬ (code = 127) := by omega
    subst hext
    simp only [hl, hne1, hne2, if_false, hb0, hm, ne_eq, not_false_eq_true,
      decide_True, List.nil_append]
    rw [← hn]
    exact hread
  · obtain ⟨hm, hl⟩ := mask_bits code (by omega)
    have h2 := readFull_append_of_length ext (key ++ (body ++ rest))
      (by rw [hext]; rfl : ext.length = 2)
    have hval : getUint ext = payload.length := by
      rw [hext]
      simp only [getUint, List.foldl_cons, List.foldl_nil]
      omega
    simp only [hl, hc, if_true, hb0, hm, ne_eq, not_false_eq_true, decide_True, h2, hval]
    exact hread
  · obtain ⟨hm, hl⟩ := mask_bits code (by omega)
    have h2 := readFull_append_of_length ext (key ++ (body ++ rest))
      (by rw [hext]; rfl : ext.length = 8)
    have hval : getUint ext = payload.length := by
      rw [hext]
      simp only [getUint, List.foldl_cons, List.foldl_nil]
      omega
    have hbig : ¬ (payload.length > maxInt32) := by omega
    have hne1 : ¬ (127 = 126) := by decide
    simp only [hl, hc, hne1, if_true, if_false, hb0, hm, ne_eq, not_false_eq_true,
      decide_True, h2, hval, hbig]
    exact hread

/-- Witness of C2: the key 37 fa 21 3d of RFC 6455 section 5.7 masking the
twelve bytes of "Hello, world", in a FIN text frame, followed by one more
byte. -/
theorem readWSFrame_maskedFrame_witness :
    readWSFrame
        (0x81 :: 0x8c :: ([] ++ ([0x37, 0xfa, 0x21, 0x3d] ++
          ([0x7f, 0x9f, 0x4d, 0x51, 0x58, 0xd6, 0x01, 0x4a, 0x58, 0x88, 0x4d, 0x59]
            ++ [0x99]))))
      = .ok (1, [0x48, 0x65, 0x6c, 0x6c, 0x6f, 0x2c, 0x20, 0x77, 0x6f, 0x72, 0x6c, 0x64],
          [0x99]) :=
  readWSFrame_maskedFrame 8 1 12 [] [0x37, 0xfa, 0x21, 0x3d]
    [0x7f, 0x9f, 0x4d, 0x51, 0x58, 0xd6, 0x01, 0x4a, 0x58, 0x88, 0x4d, 0x59]
    [0x48, 0x65, 0x6c, 0x6c, 0x6f, 0x2c, 0x20, 0x77, 0x6f, 0x72, 0x6c, 0x64] [0x99]
    (by decide) (by decide) (by decide) (by simp [maxInt32])
    (Or.inl ⟨by decide, rfl, rfl⟩) (by decide) (by decide)

/-! ### Keys of a map -/

section KeyLemmas
variable {V : Type}

theorem keys_mapSet_subset (m : List (String × V)) (k : String) (v : V) :
    ∀ x ∈ (mapSet m k v).map Prod.fst, x ∈ m.map Prod.fst ∨ x = k := by
  intro x hx
  rw [List.mem_map] at hx
  obtain ⟨e, he, hex⟩ := hx
  rcases mem_mapSet he with h | h
  · exact Or.inl (List.mem_map.mpr ⟨e, h, hex⟩)
  · rw [h] at hex; exact Or.inr hex.symm

theorem keys_mapSet_nodup {m : List (String × V)} (k : String) (v : V)
    (h : (m.map Prod.fst).Nodup) : ((mapSet m k v).map Prod.fst).Nodup := by
  induction m with
  | nil => simp [mapSet]
  | cons e m ih =>
    obtain ⟨k1, v1⟩ := e
    simp only [List.map_cons, List.nodup_cons] at h
    by_cases hk : k1 = k
    · subst hk
      simp only [mapSet, if_true, List.map_cons, List.nodup_cons]
      exact h
    · simp only [mapSet, hk, if_false, List.map_cons, List.nodup_cons]
      refine ⟨fun hin => ?_, ih h.2⟩
      rcases keys_mapSet_subset m k v k1 hin with h1 | h1
      · exact h.1 h1
      · exact hk h1

theorem keys_mapDelete_nodup {m : List (String × V)} (k : String)
    (h : (m.map Prod.fst).Nodup) : ((mapDelete m k).map Prod.fst).Nodup := by
  unfold mapDelete
  exact List.Nodup.sublist ((List.filter_sublist m).map Prod.fst) h

theorem mem_mapSet_of_nodup {m : List (String × V)} {k : String} {v : V}
    {e : String × V} (hn : (m.map Prod.fst).Nodup) (h : e ∈ mapSet m k v) :
    (e ∈ m ∧ e.1 ≠ k) ∨ e = (k, v) := by
  induction m with
  | nil => simp [mapSet] at h; exact Or.inr h
  | cons e1 m ih =>
    obtain ⟨k1, v1⟩ := e1
    simp only [List.map_cons, List.nodup_cons] at hn
    by_cases hk : k1 = k
    · subst hk
      simp only [mapSet, if_true, List.mem_cons] at h
      rcases h with h | h
      · exact Or.inr h
      · refine Or.inl ⟨List.mem_cons_of_mem _ h, fun hek => hn.1 ?_⟩
        rw [← hek]
        exact List.mem_map.mpr ⟨e, h, rfl⟩
    · simp only [mapSet, hk, if_false, List.mem_cons] at h
      rcases h with h | h
      · exact Or.inl ⟨by simp [h], by rw [h]; exact hk⟩
      · rcases ih hn.2 h with h1 | h1
        · exact Or.inl ⟨List.mem_cons_of_mem _ h1.1, h1.2⟩
        · exact Or.inr h1

theorem eq_of_key_eq_of_nodup {m : List (String × V)} {x y : String × V}
    (hn : (m.map Prod.fst).Nodup) (hx : x ∈ m) (hy : y ∈ m) (hk : x.1 = y.1) : x = y := by
  induction m with
  | nil => cases hx
  | cons e m ih =>
    simp only [List.map_cons, List.nodup_cons] at hn
    simp only [List.mem_cons] at hx hy
    rcases hx with hx | hx <;> rcases hy with hy | hy
    · rw [hx, hy]
    · exfalso
      apply hn.1
      rw [← hx, hk]
      exact List.mem_map.mpr ⟨y, hy, rfl⟩
    · exfalso
      apply hn.1
      rw [← hy, ← hk]
      exact List.mem_map.mpr ⟨x, hx, rfl⟩
    · exact ih hn.2 hx hy

theorem mapGet_ne_none_of_mem {m : List (String × V)} {e : String × V} (h : e ∈ m) :
    mapGet m e.1 ≠ none := by
  induction m with
  | nil => cases h
  | cons e1 m ih =>
    obtain ⟨k1, v1⟩ := e1
    by_cases hk : k1 = e.1
    · simp [mapGet, hk]
    · simp only [mapGet, hk, if_false]
      simp only [List.mem_cons] at h
      rcases h with h | h
      · exact absurd (by rw [h]) hk
      · exact ih h

end KeyLemmas

theorem mapGet_foldl_mapDelete (players : List Player) (idx : List (String × String))
    (p : String) :
    mapGet (players.foldl (fun idx pl => mapDelete idx pl.PeerID) idx) p
      = mapGet idx p ∨ ∃ pl ∈ players, pl.PeerID = p := by
  induction players generalizing idx with
  | nil => exact Or.inl rfl
  | cons q qs ih =>
    simp only [List.foldl_cons]
    rcases ih (mapDelete idx q.PeerID) with h | ⟨pl, hpl, hp⟩
    · by_cases hq : q.PeerID = p
      · exact Or.inr ⟨q, List.mem_cons_self _ _, hq⟩
      · rw [mapGet_mapDelete_ne idx hq] at h
        exact Or.inl h
    · exact Or.inr ⟨pl, List.mem_cons_of_mem _ hpl, hp⟩

/-! ### Transitions of the registry -/

theorem set_map_peerID (players : List Player) (i : Nat) (pl pl1 : Player)
    (h : players.get? i = some pl) (hid : pl1.PeerID = pl.PeerID) :
    (players.set i pl1).map (fun q => q.PeerID) = players.map (fun q => q.PeerID) := by
  induction players generalizing i with
  | nil => simp
  | cons q qs ih =>
    cases i with
    | zero =>
      simp only [List.get?_cons_zero, Option.some.injEq] at h
      simp [List.set, hid, h]
    | succ i =>
      simp only [List.get?_cons_succ] at h
      simp [List.set, ih i h]

theorem set_map_isHost (players : List Player) (i : Nat) (pl pl1 : Player)
    (h : players.get? i = some pl) (hid : pl1.IsHost = pl.IsHost) :
    (players.set i pl1).map (fun q => q.IsHost) = players.map (fun q => q.IsHost) := by
  induction players generalizing i with
  | nil => simp
  | cons q qs ih =>
    cases i with
    | zero =>
      simp only [List.get?_cons_zero, Option.some.injEq] at h
      simp [List.set, hid, h]
    | succ i =>
      simp only [List.get?_cons_succ] at h
      simp [List.set, ih i h]

theorem findPlayer_get {players : List Player} {peerID : String} {i : Nat} {pl : Player}
    (h : findPlayer players peerID = some (i, pl)) :
    players.get? i = some pl ∧ pl.PeerID = peerID := by
  induction players generalizing i with
  | nil => simp [findPlayer] at h
  | cons q qs ih =>
    by_cases hq : q.PeerID = peerID
    · simp only [findPlayer, hq, if_true, Option.some.injEq, Prod.mk.injEq] at h
      obtain ⟨h1, h2⟩ := h
      subst h1; subst h2
      exact ⟨rfl, hq⟩
    · simp only [findPlayer, hq, if_false, Option.map_eq_some', Prod.mk.injEq] at h
      obtain ⟨⟨j, q1⟩, hf, hj, hq1⟩ := h
      simp only at hj hq1
      subst hj; subst hq1
      obtain ⟨h1, h2⟩ := ih hf
      exact ⟨by simpa using h1, h2⟩

theorem removePeer_transition (s : Server) (e : Event) (peerID : String) (now : Int) :
    Transition s e (removePeer s peerID now).1 := by
  unfold removePeer
  cases hidx : mapGet s.peerToRoom peerID with
  | none => exact Transition.unindexed e peerID (Or.inl hidx)
  | some k =>
    cases hr : mapGet s.rooms k with
    | none =>
      simp only [hr]
      exact Transition.unindexed e peerID (Or.inr ⟨k, hidx, hr⟩)
    | some r =>
      simp only [hr]
      by_cases hlen : (filterPlayers r.Players peerID).length = 0
      · simp only [hlen, if_true]
        exact Transition.emptied e peerID k r hidx hr (List.length_eq_zero.mp hlen)
      · simp only [hlen, if_false]
        exact Transition.departed e peerID k r now hidx hr
          (fun h => hlen (by rw [h]; rfl))

theorem handleRelay_fst (s : Server) (p : Peer) (peerID roomID : String) (r : Room)
    (pl : Player) (env : Envelope) :
    (handleRelay s p peerID roomID r pl env).1 = s := by
  unfold handleRelay
  by_cases hh : pl.IsHost = true
  · simp [hh]
  · simp only [hh, if_false]
    generalize (match firstHost r.Players with
      | some rp => rp.PeerID
      | none => "") = hostPeerID
    cases mapGet s.peers hostPeerID with
    | none => rfl
    | some hp =>
      dsimp only
      split_ifs <;> rfl

theorem handleMember_transition (s : Server) (e : Event) (p : Peer) (peerID : String)
    (env : Envelope) (clock : Nat → Int) :
    Transition s e (handleMember s p peerID env clock).1 := by
  unfold handleMember
  dsimp only
  cases hr : mapGet s.rooms ((mapGet s.peerToRoom peerID).getD "") with
  | none => exact Transition.idle e
  | some r =>
    dsimp only
    cases hpl : findPlayer r.Players peerID with
    | none => exact Transition.idle e
    | some ip =>
      obtain ⟨i, pl⟩ := ip
      obtain ⟨hget, _⟩ := findPlayer_get hpl
      dsimp only
      split_ifs <;>
        first
        | exact Transition.idle e
        | exact Transition.edited e _ r _ hr (set_map_peerID _ _ pl _ hget rfl)
            (set_map_isHost _ _ pl _ hget rfl) rfl rfl (Or.inl rfl)
        | exact Transition.edited e _ r _ hr rfl rfl rfl rfl (Or.inr rfl)
        | exact Transition.edited e _ r _ hr rfl rfl rfl rfl (Or.inl rfl)
        | (rw [handleRelay_fst]; exact Transition.idle e)

theorem handleCreate_transition (s : Server) (p : Peer) (peerID : String)
    (env : Envelope) (rnd : Nat) (clock : Nat → Int)
    (hp : mapGet s.peers peerID = some p) (ht : env.Typ = "room.create") :
    Transition s (.message peerID env rnd clock)
      (handleCreate s p peerID env rnd clock).1 := by
  unfold handleCreate
  dsimp only
  refine Transition.created peerID env rnd clock p _ _
    ⟨peerID, truncBytes 16 (goBytes (getString env.Payload "hostName" "Player1")), true, true⟩
    hp ht ?_ ?_ ?_ ?_ ?_ ?_ ?_ ?_
  · rfl
  · rfl
  · rfl
  · dsimp only [maxPlayersDefault]
    split_ifs <;> omega
  · dsimp only [maxPlayersDefault]
    split_ifs <;> omega
  · rfl
  · rfl
  · rfl

theorem handleJoin_transition (s : Server) (p : Peer) (peerID : String)
    (env : Envelope) (rnd : Nat) (clock : Nat → Int)
    (hp : mapGet s.peers peerID = some p) (ht : env.Typ = "room.join") :
    Transition s (.message peerID env rnd clock)
      (handleJoin s p peerID env clock).1 := by
  unfold handleJoin
  dsimp only
  cases hr : mapGet s.rooms (getString env.Payload "roomId" "") with
  | none => exact Transition.idle _
  | some r =>
    dsimp only
    by_cases hfull : (r.Players.length : Int) ≥ r.MaxPlayers
    · simp only [hfull, if_true]
      exact Transition.idle _
    · by_cases hs : r.Status = "lobby"
      · have hs1 : ¬ (r.Status ≠ "lobby") := fun h => h hs
        rw [if_neg hfull, if_neg hs1]
        exact Transition.joined peerID env rnd clock p r ⟨peerID, _, false, false⟩ hp ht hr
          (by omega) hs rfl rfl
      · simp only [hfull, if_false, hs, ne_eq, not_false_eq_true, if_true]
        exact Transition.idle _

/-- Every event leads to one of the shapes of `Transition`. -/
theorem step_transition (s : Server) (e : Event) : Transition s e (step s e) := by
  cases e with
  | register => exact Transition.registered
  | message peerID env rnd clock =>
    simp only [step, handleMessage]
    cases hp : mapGet s.peers peerID with
    | none => exact Transition.idle _
    | some p =>
      dsimp only
      by_cases h1 : env.Typ = "room.list.request"
      · simp only [h1, if_true]
        exact Transition.idle _
      · by_cases h2 : env.Typ = "room.create"
        · simp only [h2, if_true]
          exact handleCreate_transition s p peerID env rnd clock hp h2
        · by_cases h3 : env.Typ = "room.join"
          · simp only [h3, if_true]
            exact handleJoin_transition s p peerID env rnd clock hp h3
          · by_cases h4 : env.Typ = "room.leave"
            · simp only [h4, if_true]
              exact removePeer_transition s _ peerID (clock 0)
            · simp only [h1, h2, h3, h4, if_false]
              exact handleMember_transition s _ p peerID env clock
  | remove peerID now => exact removePeer_transition s _ peerID now
  | sweep now => exact Transition.swept now

theorem ReachableBy.induction {ok : Server → Event → Prop} (P : Server → Prop)
    (h0 : P newServer)
    (hstep : ∀ s e s1, P s → ok s e → Transition s e s1 → P s1) :
    ∀ s, ReachableBy ok s → P s := by
  intro s h
  induction h with
  | init => exact h0
  | step s e _ hok ih => exact hstep s e _ ih hok (step_transition s e)

theorem reachableBy_run {ok : Server → Event → Prop} (events : List Event) :
    ∀ s, ReachableBy ok s →
      (∀ pre e post, events = pre ++ e :: post → ok (run s pre) e) →
      ReachableBy ok (run s events) := by
  induction events with
  | nil => intro s h _; exact h
  | cons e es ih =>
    intro s h hok
    have h1 : ReachableBy ok (step s e) :=
      ReachableBy.step s e h (hok [] e es rfl)
    refine ih (step s e) h1 ?_
    intro pre e1 post heq
    have := hok (e :: pre) e1 post (by rw [heq]; rfl)
    simpa [run] using this

theorem reachableBy_of_runAllowed (ok : Server → Event → Bool) (events : List Event) :
    ∀ s, ReachableBy (fun s e => ok s e = true) s → runAllowed ok s events = true →
      ReachableBy (fun s e => ok s e = true) (run s events) := by
  induction events with
  | nil => intro s h _; exact h
  | cons e es ih =>
    intro s h hall
    simp only [runAllowed, Bool.and_eq_true] at hall
    exact ih (step s e) (ReachableBy.step s e h hall.1) hall.2

theorem reachable_run (events : List Event) : Reachable (run newServer events) :=
  reachableBy_run events newServer ReachableBy.init (fun _ _ _ _ => trivial)

/-! ### Player lists -/

theorem hostCount_congr {l1 l2 : List Player}
    (h : l1.map (fun pl => pl.IsHost) = l2.map (fun pl => pl.IsHost)) :
    hostCount l1 = hostCount l2 := by
  induction l1 generalizing l2 with
  | nil =>
    cases l2 with
    | nil => rfl
    | cons q qs => simp at h
  | cons q qs ih =>
    cases l2 with
    | nil => simp at h
    | cons q2 qs2 =>
      simp only [List.map_cons, List.cons.injEq] at h
      simp only [hostCount, List.countP_cons, h.1] at ih ⊢
      rw [ih h.2]

theorem firstHost_eq_none {l : List Player} :
    firstHost l = none ↔ hostCount l = 0 := by
  induction l with
  | nil => simp [firstHost, hostCount]
  | cons q qs ih =>
    by_cases hq : q.IsHost = true
    · simp [firstHost, hostCount, hq]
    · simp only [hostCount] at ih
      simp [firstHost, hostCount, hq, ih]

theorem hostCount_filterPlayers_le (l : List Player) (peerID : String) :
    hostCount (filterPlayers l peerID) ≤ hostCount l := by
  unfold hostCount filterPlayers
  exact List.Sublist.countP_le _ (List.filter_sublist l)

theorem hostCount_promoteHost {l : List Player} (h1 : hostCount l ≤ 1) (hne : l ≠ []) :
    hostCount (promoteHost l) = 1 := by
  unfold promoteHost
  cases hf : firstHost l with
  | some pl =>
    have : hostCount l ≠ 0 := fun h0 => by
      rw [firstHost_eq_none.mpr h0] at hf
      cases hf
    simp only
    omega
  | none =>
    have h0 := firstHost_eq_none.mp hf
    cases l with
    | nil => exact absurd rfl hne
    | cons q qs =>
      simp only [hostCount, List.countP_cons] at h0 ⊢
      simp only [if_true]
      omega

theorem length_promoteHost (l : List Player) : (promoteHost l).length = l.length := by
  unfold promoteHost
  cases firstHost l with
  | some pl => rfl
  | none =>
    cases l with
    | nil => rfl
    | cons q qs => rfl

theorem map_peerID_promoteHost (l : List Player) :
    (promoteHost l).map (fun pl => pl.PeerID) = l.map (fun pl => pl.PeerID) := by
  unfold promoteHost
  cases firstHost l with
  | some pl => rfl
  | none =>
    cases l with
    | nil => rfl
    | cons q qs => rfl

theorem length_eq_of_map_eq {l1 l2 : List Player}
    (h : l1.map (fun pl => pl.PeerID) = l2.map (fun pl => pl.PeerID)) :
    l1.length = l2.length := by
  have := congrArg List.length h
  simpa using this

/-! ### The reaper -/

theorem sweepRoom_rooms_subset (now : Int) (s : Server) (k : String) (r : Room) :
    ∀ e ∈ (sweepRoom now s k r).rooms, e ∈ s.rooms := by
  intro e he
  unfold sweepRoom at he
  split_ifs at he
  · exact (mem_mapDelete.mp he).1
  · exact he

theorem foldl_sweepRoom_rooms_subset (now : Int) (l : List (String × Room)) :
    ∀ (s : Server), ∀ e ∈ (l.foldl (fun acc e => sweepRoom now acc e.1 e.2) s).rooms,
      e ∈ s.rooms := by
  induction l with
  | nil => intro s e he; exact he
  | cons x xs ih =>
    intro s e he
    exact sweepRoom_rooms_subset now s x.1 x.2 e (ih _ e he)

theorem cleanupExpiredRooms_rooms_subset (now : Int) (s : Server) :
    ∀ e ∈ (cleanupExpiredRooms now s).rooms, e ∈ s.rooms :=
  foldl_sweepRoom_rooms_subset now s.rooms s

theorem sweepRoom_keys_nodup (now : Int) (s : Server) (k : String) (r : Room)
    (h : (s.rooms.map Prod.fst).Nodup) :
    ((sweepRoom now s k r).rooms.map Prod.fst).Nodup := by
  unfold sweepRoom
  split_ifs
  · exact keys_mapDelete_nodup k h
  · exact h

theorem foldl_sweepRoom_keys_nodup (now : Int) (l : List (String × Room)) :
    ∀ (s : Server), (s.rooms.map Prod.fst).Nodup →
      ((l.foldl (fun acc e => sweepRoom now acc e.1 e.2) s).rooms.map Prod.fst).Nodup := by
  induction l with
  | nil => intro s h; exact h
  | cons x xs ih =>
    intro s h
    exact ih _ (sweepRoom_keys_nodup now s x.1 x.2 h)

theorem sweepRoom_index (now : Int) (s : Server) (k : String) (r : Room) (p : String) :
    mapGet (sweepRoom now s k r).peerToRoom p = mapGet s.peerToRoom p ∨
      (roomExpired now r ∧ ∃ pl ∈ r.Players, pl.PeerID = p) := by
  unfold sweepRoom
  split_ifs with hexp
  · rcases mapGet_foldl_mapDelete r.Players s.peerToRoom p with h | h
    · exact Or.inl h
    · exact Or.inr ⟨hexp, h⟩
  · exact Or.inl rfl

theorem foldl_sweepRoom_index (now : Int) (l : List (String × Room)) (p : String) :
    ∀ (s : Server),
      mapGet (l.foldl (fun acc e => sweepRoom now acc e.1 e.2) s).peerToRoom p
          = mapGet s.peerToRoom p ∨
        ∃ x ∈ l, roomExpired now x.2 ∧ ∃ pl ∈ x.2.Players, pl.PeerID = p := by
  induction l with
  | nil => intro s; exact Or.inl rfl
  | cons x xs ih =>
    intro s
    simp only [List.foldl_cons]
    rcases ih (sweepRoom now s x.1 x.2) with h | ⟨y, hy, hexp, hpl⟩
    · rcases sweepRoom_index now s x.1 x.2 p with h1 | ⟨hexp, hpl⟩
      · exact Or.inl (h.trans h1)
      · exact Or.inr ⟨x, List.mem_cons_self _ _, hexp, hpl⟩
    · exact Or.inr ⟨y, List.mem_cons_of_mem _ hy, hexp, hpl⟩

theorem foldl_sweepRoom_expired_gone (now : Int) (l : List (String × Room)) :
    ∀ (s : Server), ∀ x ∈ l, roomExpired now x.2 →
      ∀ e ∈ (l.foldl (fun acc e => sweepRoom now acc e.1 e.2) s).rooms, e.1 ≠ x.1 := by
  induction l with
  | nil => intro s x hx; cases hx
  | cons y ys ih =>
    intro s x hx hexp e he
    simp only [List.foldl_cons] at he
    simp only [List.mem_cons] at hx
    rcases hx with hx | hx
    · subst hx
      have h1 := foldl_sweepRoom_rooms_subset now ys _ e he
      have hcond : x.2.Players.length = 0 ∨ now - x.2.LastActive > roomTTLMillis := hexp
      simp only [sweepRoom, hcond, if_true] at h1
      exact (mem_mapDelete.mp h1).2
    · exact ih _ x hx hexp e he

/-! ### Invariants of the rooms -/

/-- A property of the rooms that every kind of room update maintains is
maintained by every transition. -/
theorem Transition.rooms_all {s s1 : Server} {e : Event} (Q : Room → Prop)
    (ht : Transition s e s1) (hs : ∀ x ∈ s.rooms, Q x.2)
    (hcreate : ∀ r pl, r.Players = [pl] → pl.IsHost = true → 2 ≤ r.MaxPlayers → Q r)
    (hjoin : ∀ peerID env rnd clock r pl, e = .message peerID env rnd clock →
      env.Typ = "room.join" → mapGet s.rooms (getString env.Payload "roomId" "") = some r →
      Q r → (r.Players.length : Int) < r.MaxPlayers → pl.PeerID = peerID → pl.IsHost = false →
      Q { r with Players := r.Players ++ [pl], LastActive := clock 0 })
    (hdepart : ∀ r peerID now, Q r → filterPlayers r.Players peerID ≠ [] →
      Q { r with Players := promoteHost (filterPlayers r.Players peerID), LastActive := now })
    (hedit : ∀ r r1, Q r →
      r1.Players.map (fun pl => pl.PeerID) = r.Players.map (fun pl => pl.PeerID) →
      r1.Players.map (fun pl => pl.IsHost) = r.Players.map (fun pl => pl.IsHost) →
      r1.MaxPlayers = r.MaxPlayers → Q r1) :
    ∀ x ∈ s1.rooms, Q x.2 := by
  cases ht with
  | idle => exact hs
  | registered => exact hs
  | created peerID env rnd clock p k r pl hp hty hk hid hst h2 h10 hpl hpid hhost =>
    intro x hx
    rcases mem_mapSet hx with h | h
    · exact hs x h
    · rw [h]; exact hcreate r pl hpl hhost h2
  | joined peerID env rnd clock p r pl hp hty hr hlt hst hpid hhost =>
    intro x hx
    rcases mem_mapSet hx with h | h
    · exact hs x h
    · rw [h]
      exact hjoin peerID env rnd clock r pl rfl hty hr (hs _ (mapGet_mem hr)) hlt hpid hhost
  | unindexed => exact hs
  | emptied e peerID k r hidx hr hempty =>
    intro x hx
    exact hs x (mem_mapDelete.mp hx).1
  | departed e peerID k r now hidx hr hne =>
    intro x hx
    rcases mem_mapSet hx with h | h
    · exact hs x h
    · rw [h]
      exact hdepart r peerID now (hs _ (mapGet_mem hr)) hne
  | edited e k r r1 hr hpid hhost hmax hid hst =>
    intro x hx
    rcases mem_mapSet hx with h | h
    · exact hs x h
    · rw [h]
      exact hedit r r1 (hs _ (mapGet_mem hr)) hpid hhost hmax
  | swept now =>
    intro x hx
    exact hs x (cleanupExpiredRooms_rooms_subset now s x hx)

theorem entersFresh_spec {s : Server} {peerID : String} {env : Envelope} {rnd : Nat}
    {clock : Nat → Int} (h : entersFresh s (.message peerID env rnd clock) = true)
    (ht : env.Typ = "room.create" ∨ env.Typ = "room.join") :
    ∀ x ∈ s.rooms, ∀ pl ∈ x.2.Players, pl.PeerID ≠ peerID := by
  intro x hx pl hpl hid
  simp only [entersFresh, ht, if_true, List.all_eq_true, Bool.not_eq_true',
    List.any_eq_false, decide_eq_true_eq] at h
  exact h x hx pl hpl hid

theorem joinsFresh_spec {s : Server} {peerID : String} {env : Envelope} {rnd : Nat}
    {clock : Nat → Int} {r : Room} (h : joinsFresh s (.message peerID env rnd clock) = true)
    (ht : env.Typ = "room.join")
    (hr : mapGet s.rooms (getString env.Payload "roomId" "") = some r) :
    ∀ pl ∈ r.Players, pl.PeerID ≠ peerID := by
  intro pl hpl hid
  simp only [joinsFresh, ht, if_true, hr, Bool.not_eq_true', List.any_eq_false,
    decide_eq_true_eq] at h
  exact h pl hpl hid

theorem mem_of_map_peerID_eq {l1 l2 : List Player}
    (h : l1.map (fun pl => pl.PeerID) = l2.map (fun pl => pl.PeerID))
    {pl : Player} (hpl : pl ∈ l1) : ∃ ql ∈ l2, ql.PeerID = pl.PeerID := by
  have h1 : pl.PeerID ∈ l1.map (fun pl => pl.PeerID) := List.mem_map.mpr ⟨pl, hpl, rfl⟩
  rw [h] at h1
  obtain ⟨ql, hql, hid⟩ := List.mem_map.mp h1
  exact ⟨ql, hql, hid⟩

/-- The index invariant is maintained by every transition made by an event
that `entersFresh` allows. -/
theorem Transition.indexInv {s s1 : Server} {e : Event} (ht : Transition s e s1)
    (hok : entersFresh s e = true) (hs : IndexInv s) : IndexInv s1 := by
  obtain ⟨hkeys, hidx⟩ := hs
  cases ht with
  | idle => exact ⟨hkeys, hidx⟩
  | registered => exact ⟨hkeys, hidx⟩
  | created peerID env rnd clock p k r pl hp hty hk hid hst h2 h10 hpl hpid hhost =>
    have hfresh := entersFresh_spec hok (Or.inl hty)
    refine ⟨keys_mapSet_nodup k r hkeys, ?_⟩
    intro x hx ql hql
    simp only [mapGet_mapSet]
    rcases mem_mapSet hx with h | h
    · have hne : ¬ peerID = ql.PeerID := fun h1 => hfresh x h ql hql h1.symm
      rw [if_neg hne]
      exact hidx x h ql hql
    · subst h
      simp only [hpl, List.mem_singleton] at hql
      subst hql
      simp [hpid]
  | joined peerID env rnd clock p r pl hp hty hr hlt hst hpid hhost =>
    have hfresh := entersFresh_spec hok (Or.inr hty)
    refine ⟨keys_mapSet_nodup _ _ hkeys, ?_⟩
    intro x hx ql hql
    simp only [mapGet_mapSet]
    rcases mem_mapSet hx with h | h
    · have hne : ¬ peerID = ql.PeerID := fun h1 => hfresh x h ql hql h1.symm
      rw [if_neg hne]
      exact hidx x h ql hql
    · subst h
      simp only [List.mem_append, List.mem_singleton] at hql
      rcases hql with hql | hql
      · have hne : ¬ peerID = ql.PeerID :=
          fun h1 => hfresh _ (mapGet_mem hr) ql hql h1.symm
        rw [if_neg hne]
        exact hidx _ (mapGet_mem hr) ql hql
      · subst hql
        simp [hpid]
  | unindexed e peerID hno =>
    refine ⟨hkeys, ?_⟩
    intro x hx ql hql
    have hq := hidx x hx ql hql
    have hne : peerID ≠ ql.PeerID := by
      intro h1
      rw [← h1] at hq
      rcases hno with h | ⟨k, hk1, hk2⟩
      · rw [h] at hq; cases hq
      · rw [hk1] at hq
        cases hq
        exact mapGet_ne_none_of_mem hx hk2
    show mapGet (mapDelete s.peerToRoom peerID) ql.PeerID = some x.1
    rw [mapGet_mapDelete_ne _ hne]; exact hq
  | emptied e peerID k r hi hr hempty =>
    refine ⟨keys_mapDelete_nodup k hkeys, ?_⟩
    intro x hx ql hql
    obtain ⟨hxm, hxk⟩ := mem_mapDelete.mp hx
    have hq := hidx x hxm ql hql
    have hne : peerID ≠ ql.PeerID := by
      intro h1
      rw [← h1, hi] at hq
      cases hq
      exact hxk rfl
    show mapGet (mapDelete s.peerToRoom peerID) ql.PeerID = some x.1
    rw [mapGet_mapDelete_ne _ hne]; exact hq
  | departed e peerID k r now hi hr hne =>
    refine ⟨keys_mapSet_nodup _ _ hkeys, ?_⟩
    intro x hx ql hql
    show mapGet (mapDelete s.peerToRoom peerID) ql.PeerID = some x.1
    rcases mem_mapSet_of_nodup hkeys hx with ⟨hxm, hxk⟩ | h
    · have hq := hidx x hxm ql hql
      have hne1 : peerID ≠ ql.PeerID := by
        intro h1
        rw [← h1, hi] at hq
        cases hq
        exact hxk rfl
      rw [mapGet_mapDelete_ne _ hne1]; exact hq
    · subst h
      simp only at hql
      have hin : ql.PeerID ∈ (promoteHost (filterPlayers r.Players peerID)).map
          (fun pl => pl.PeerID) := List.mem_map.mpr ⟨ql, hql, rfl⟩
      rw [map_peerID_promoteHost] at hin
      obtain ⟨q0, hq0, hq0id⟩ := List.mem_map.mp hin
      simp only [filterPlayers, List.mem_filter, decide_eq_true_eq] at hq0
      have hne1 : peerID ≠ ql.PeerID := by
        intro h1
        apply hq0.2
        rw [hq0id, h1]
      rw [mapGet_mapDelete_ne _ hne1]
      have := hidx _ (mapGet_mem hr) q0 hq0.1
      simp only [hq0id] at this
      exact this
  | edited e k r r1 hr hpid hhost hmax hid hst =>
    refine ⟨keys_mapSet_nodup _ _ hkeys, ?_⟩
    intro x hx ql hql
    rcases mem_mapSet hx with h | h
    · exact hidx x h ql hql
    · subst h
      obtain ⟨q0, hq0, hq0id⟩ := mem_of_map_peerID_eq hpid hql
      have := hidx _ (mapGet_mem hr) q0 hq0
      rw [hq0id] at this
      exact this
  | swept now =>
    refine ⟨foldl_sweepRoom_keys_nodup now s.rooms s hkeys, ?_⟩
    intro x hx ql hql
    have hxm := cleanupExpiredRooms_rooms_subset now s x hx
    have hq := hidx x hxm ql hql
    rcases foldl_sweepRoom_index now s.rooms ql.PeerID s with h | ⟨y, hy, hexp, pl, hpl, hplid⟩
    · exact h.trans hq
    · exfalso
      have hy1 := hidx y hy pl hpl
      rw [hplid, hq] at hy1
      exact foldl_sweepRoom_expired_gone now s.rooms s y hy hexp x hx
        (by simpa using hy1)

theorem removePeer_peerToRoom (s : Server) (peerID : String) (now : Int) :
    (removePeer s peerID now).1.peerToRoom = mapDelete s.peerToRoom peerID := by
  unfold removePeer
  dsimp only
  cases mapGet s.peerToRoom peerID with
  | none => rfl
  | some k =>
    dsimp only
    cases mapGet s.rooms k with
    | none => rfl
    | some r =>
      dsimp only
      split_ifs <;> rfl

theorem reachableBy_indexInv (s : Server)
    (h : ReachableBy (fun s e => entersFresh s e = true) s) : IndexInv s := by
  refine ReachableBy.induction IndexInv ?_ ?_ s h
  · exact ⟨List.nodup_nil, fun x hx => by cases hx⟩
  · intro s e s1 hs hok ht
    exact ht.indexInv hok hs

/-! ### Claims about single messages -/

/-- C4. Join beyond capacity: for every registry state and every registered
caller `p`, when the room named by a `room.join` holds at least `MaxPlayers`
players the registry is returned unchanged (rooms, index, last activity) and
the only frame written is the `room.full` reply to the caller, whose current
count is the length of the player list and whose maximum is the room's
`MaxPlayers` (`Peer.send` writes it unless the caller's connection is
closed). -/
theorem handleMessage_join_full (s : Server) (peerID : String) (p : Peer)
    (env : Envelope) (rnd : Nat) (clock : Nat → Int) (r : Room)
    (hp : mapGet s.peers peerID = some p) (ht : env.Typ = "room.join")
    (hr : mapGet s.rooms (getString env.Payload "roomId" "") = some r)
    (hfull : (r.Players.length : Int) ≥ r.MaxPlayers) :
    (handleMessage s peerID env rnd clock).1 = s ∧
    (handleMessage s peerID env rnd clock).2
      = p.send "room.full"
          (.roomFull (getString env.Payload "roomId" "") r.Players.length r.MaxPlayers)
          env.RequestID ∧
    (p.closed = false →
      (handleMessage s peerID env rnd clock).2
        = [⟨p.id, "room.full",
            .roomFull (getString env.Payload "roomId" "") r.Players.length r.MaxPlayers,
            env.RequestID⟩]) := by
  have h : handleMessage s peerID env rnd clock
      = (s, p.send "room.full"
          (.roomFull (getString env.Payload "roomId" "") r.Players.length r.MaxPlayers)
          env.RequestID) := by
    simp [handleMessage, hp, ht, handleJoin, hr, hfull]
  refine ⟨by rw [h], by rw [h], fun hc => ?_⟩
  rw [h]
  simp [Peer.send, hc]

/-- C5 (amended). A `room.join` naming a room whose status is `in-game` never
changes the registry; the caller is answered with the error `forbidden` when
the room has a free slot, and with `room.full` when it has none (the capacity
test comes first in the code). -/
theorem handleMessage_join_in_game (s : Server) (peerID : String) (p : Peer)
    (env : Envelope) (rnd : Nat) (clock : Nat → Int) (r : Room)
    (hp : mapGet s.peers peerID = some p) (ht : env.Typ = "room.join")
    (hr : mapGet s.rooms (getString env.Payload "roomId" "") = some r)
    (hs : r.Status = "in-game") :
    (handleMessage s peerID env rnd clock).1 = s ∧
    (handleMessage s peerID env rnd clock).2
      = if (r.Players.length : Int) ≥ r.MaxPlayers then
          p.send "room.full"
            (.roomFull (getString env.Payload "roomId" "") r.Players.length r.MaxPlayers)
            env.RequestID
        else p.send "error" (.error "forbidden" "Match already started") env.RequestID := by
  by_cases hfull : (r.Players.length : Int) ≥ r.MaxPlayers
  · simp [handleMessage, hp, ht, handleJoin, hr, hfull]
  · simp [handleMessage, hp, ht, handleJoin, hr, hfull, hs, Peer.sendError]

theorem mapGet_eq_lookup {V : Type} (m : List (String × V)) (k : String) :
    mapGet m k = List.lookup k m := by
  induction m with
  | nil => rfl
  | cons e m ih =>
    obtain ⟨k1, v⟩ := e
    by_cases h : k1 = k
    · subst h; simp [mapGet, List.lookup]
    · have h2 : (k == k1) = false := by
        simpa using fun h3 : k = k1 => h h3.symm
      simp [mapGet, List.lookup, h, h2, ih]

theorem getBool_eq_true_iff (m : Payload) (k : String) :
    getBool m k = true ↔ List.lookup k m = some (.bool true) := by
  rw [← mapGet_eq_lookup]
  unfold getBool
  cases h : mapGet m k with
  | none => simp
  | some v => cases v <;> simp

theorem readyCount_eq_length_filter (players : List Player) :
    readyCount players = (players.filter (fun pl => pl.Ready)).length :=
  List.countP_eq_length_filter _ _

/-- C7. The ready rule of `match.start`: when the caller's record in its
indexed room is flagged host, the room gets status `in-game` (and a new
last-activity time, nothing else in the registry changing) exactly when the
payload's `forceStart` field is the boolean true or at least two of the room's
player records have the ready flag set, whatever the number of ready players
when `forceStart` is true; otherwise the registry is unchanged and the caller
is sent the error `bad_request`. -/
theorem handleMessage_match_start (s : Server) (peerID roomID : String) (p : Peer)
    (env : Envelope) (rnd : Nat) (clock : Nat → Int) (r : Room)
    (playerIdx : Nat) (pl : Player)
    (hp : mapGet s.peers peerID = some p) (ht : env.Typ = "match.start")
    (hidx : mapGet s.peerToRoom peerID = some roomID)
    (hr : mapGet s.rooms roomID = some r)
    (hpl : findPlayer r.Players peerID = some (playerIdx, pl))
    (hhost : pl.IsHost = true) :
    ((List.lookup "forceStart" env.Payload = some (.bool true) ∨
        2 ≤ (r.Players.filter (fun q => q.Ready)).length) →
      (handleMessage s peerID env rnd clock).1
        = { s with rooms := (mapSet s.rooms roomID
              { r with Status := "in-game", LastActive := clock 0 }) } ∧
      mapGet (handleMessage s peerID env rnd clock).1.rooms roomID
        = some { r with Status := "in-game", LastActive := clock 0 }) ∧
    (¬ (List.lookup "forceStart" env.Payload = some (.bool true) ∨
        2 ≤ (r.Players.filter (fun q => q.Ready)).length) →
      (handleMessage s peerID env rnd clock).1 = s ∧
      (handleMessage s peerID env rnd clock).2
        = p.send "error" (.error "bad_request" "Need at least 2 ready players")
            env.RequestID) ∧
    (r.Status = "lobby" →
      ((∃ r1, mapGet (handleMessage s peerID env rnd clock).1.rooms roomID = some r1 ∧
          r1.Status = "in-game")
        ↔ (List.lookup "forceStart" env.Payload = some (.bool true) ∨
            2 ≤ (r.Players.filter (fun q => q.Ready)).length))) := by
  rw [← getBool_eq_true_iff, ← readyCount_eq_length_filter]
  have hyes : (getBool env.Payload "forceStart" = true ∨ 2 ≤ readyCount r.Players) →
      (handleMessage s peerID env rnd clock).1
        = { s with rooms := (mapSet s.rooms roomID
              { r with Status := "in-game", LastActive := clock 0 }) } := by
    intro hc
    have hc2 : ¬ (getBool env.Payload "forceStart" = false ∧ readyCount r.Players < 2) := by
      rintro ⟨h1, h2⟩
      rcases hc with h | h
      · simp [h] at h1
      · omega
    simp [handleMessage, ht, hp, handleMember, hidx, hr, hpl, hhost, hc2]
  have hno : ¬ (getBool env.Payload "forceStart" = true ∨ 2 ≤ readyCount r.Players) →
      handleMessage s peerID env rnd clock
        = (s, p.send "error" (.error "bad_request" "Need at least 2 ready players")
            env.RequestID) := by
    intro hc
    have hc2 : getBool env.Payload "forceStart" = false ∧ readyCount r.Players < 2 := by
      constructor
      · cases h : getBool env.Payload "forceStart"
        · rfl
        · exact absurd (Or.inl h) hc
      · by_contra h
        exact hc (Or.inr (by omega))
    simp [handleMessage, ht, hp, handleMember, hidx, hr, hpl, hhost, hc2, Peer.sendError]
  refine ⟨fun hc => ⟨hyes hc, ?_⟩, fun hc => ?_, fun hl => ⟨?_, ?_⟩⟩
  · rw [hyes hc]; exact mapGet_mapSet_self _ _ _
  · rw [hno hc]; exact ⟨rfl, rfl⟩
  · rintro ⟨r1, h1, h2⟩
    by_contra hc
    rw [hno hc] at h1
    simp only [] at h1
    rw [hr] at h1
    cases h1
    rw [hl] at h2
    exact absurd h2 (by decide)
  · intro hc
    refine ⟨{ r with Status := "in-game", LastActive := clock 0 }, ?_, rfl⟩
    rw [hyes hc]; exact mapGet_mapSet_self _ _ _

theorem sendEach_open (recipients : List Peer) (msgType : String) (payload : OutPayload)
    (h : ∀ p ∈ recipients, p.closed = false) :
    sendEach recipients msgType payload
      = recipients.map (fun p => ⟨p.id, msgType, payload, ""⟩) := by
  induction recipients with
  | nil => rfl
  | cons p ps ih =>
    have hp : p.closed = false := h p (List.mem_cons_self _ _)
    simp only [sendEach, Peer.send, hp, List.map_cons]
    rw [ih (fun q hq => h q (List.mem_cons_of_mem _ hq))]
    simp

theorem roomRecipientsLocked_open (s : Server) (r : Room) :
    ∀ p ∈ roomRecipientsLocked s r, p.closed = false := by
  intro p hp
  unfold roomRecipientsLocked at hp
  rw [List.mem_filterMap] at hp
  obtain ⟨pl, _, hpl⟩ := hp
  cases hg : mapGet s.peers pl.PeerID with
  | none => rw [hg] at hpl; cases hpl
  | some q =>
    rw [hg] at hpl
    cases hc : q.closed with
    | true => simp [hc] at hpl
    | false =>
      simp only [hc, Bool.false_eq_true, if_false, Option.some.injEq] at hpl
      rw [← hpl]; exact hc

theorem firstHost_none_of_all {l : List Player} (h : ∀ pl ∈ l, pl.IsHost = false) :
    firstHost l = none := by
  induction l with
  | nil => rfl
  | cons q qs ih =>
    have hq := h q (List.mem_cons_self _ _)
    simp only [firstHost, hq, Bool.false_eq_true, if_false]
    exact ih (fun pl hpl => h pl (List.mem_cons_of_mem _ hpl))

/-- C6. Host failover: when `h` is indexed to a room in which exactly the
records of `h` are flagged host and which has another player, `removePeer h`
keeps the room registered with the other players in their original order
(the list filtered by peer id, so names and ready flags are untouched), the
first of them now flagged host and none of the others, and the updated
`room.state` goes, once each and in member order, to exactly the remaining
members whose peer is still registered and not closed. Distinctness of the
peer ids is not needed. -/
theorem removePeer_host_failover (s : Server) (h roomID : String) (r : Room) (now : Int)
    (hidx : mapGet s.peerToRoom h = some roomID)
    (hr : mapGet s.rooms roomID = some r)
    (hhost : ∀ pl ∈ r.Players, (pl.IsHost = true ↔ pl.PeerID = h))
    (hother : ∃ pl ∈ r.Players, pl.PeerID ≠ h) :
    ∃ q qs,
      r.Players.filter (fun pl => decide (pl.PeerID ≠ h)) = q :: qs ∧
      (∀ pl ∈ q :: qs, pl.IsHost = false) ∧
      mapGet (removePeer s h now).1.rooms roomID
        = some { r with Players := { q with IsHost := true } :: qs, LastActive := now } ∧
      (removePeer s h now).2
        = ((({ q with IsHost := true } :: qs).filterMap fun pl =>
              match mapGet (removePeer s h now).1.peers pl.PeerID with
              | some p => if p.closed then none else some p
              | none => none).map fun p =>
            (⟨p.id, "room.state",
              .room ⟨r.RoomID, r.RoomName, r.Status, r.MaxPlayers,
                { q with IsHost := true } :: qs⟩, ""⟩ : Delivery)) := by
  obtain ⟨o, ho, hoh⟩ := hother
  have hmem : o ∈ filterPlayers r.Players h := by
    simp [filterPlayers, ho, hoh]
  have hall : ∀ pl ∈ filterPlayers r.Players h, pl.IsHost = false := by
    intro pl hpl
    simp only [filterPlayers, List.mem_filter, decide_eq_true_eq] at hpl
    cases hh : pl.IsHost with
    | false => rfl
    | true => exact absurd ((hhost pl hpl.1).mp hh) hpl.2
  cases hf : filterPlayers r.Players h with
  | nil => rw [hf] at hmem; cases hmem
  | cons q qs =>
    have hprom : promoteHost (q :: qs) = { q with IsHost := true } :: qs := by
      have hnone : firstHost (q :: qs) = none := firstHost_none_of_all (hf ▸ hall)
      simp [promoteHost, hnone]
    have hres : removePeer s h now =
        (({ s with
            peers := mapDelete s.peers h
            peerToRoom := mapDelete s.peerToRoom h
            rooms := (mapSet s.rooms roomID
              { r with Players := { q with IsHost := true } :: qs, LastActive := now }) } : Server),
          broadcastRoomState
            (roomRecipientsLocked
              ({ s with
                peers := mapDelete s.peers h
                peerToRoom := mapDelete s.peerToRoom h
                rooms := (mapSet s.rooms roomID
                  { r with Players := { q with IsHost := true } :: qs, LastActive := now }) } : Server)
              { r with Players := { q with IsHost := true } :: qs, LastActive := now })
            (roomState { r with Players := { q with IsHost := true } :: qs, LastActive := now })) := by
      simp [removePeer, hidx, hr, hf, hprom]
    refine ⟨q, qs, hf, hf ▸ hall, ?_, ?_⟩
    · rw [hres]; exact mapGet_mapSet_self _ _ _
    · rw [hres]
      simp only [broadcastRoomState]
      rw [sendEach_open _ _ _ (roomRecipientsLocked_open _ _)]
      rfl

/-! ### Claims about every reachable registry -/

/-- C3. Single-host invariant: in every registry reachable from the empty one
by registrations, handled messages, peer removals and reaper sweeps, every
stored room has exactly one player flagged host. -/
theorem reachable_single_host (s : Server) (h : Reachable s) :
    ∀ x ∈ s.rooms, hostCount x.2.Players = 1 := by
  refine ReachableBy.induction (fun s => ∀ x ∈ s.rooms, hostCount x.2.Players = 1)
    (by intro x hx; cases hx) ?_ s h
  intro s e s1 hs _ ht
  refine ht.rooms_all (fun r => hostCount r.Players = 1) hs ?_ ?_ ?_ ?_
  · intro r pl hpl hhost _
    simp [hpl, hostCount, hhost]
  · intro peerID env rnd clock r pl _ _ _ hr _ _ hhost
    simp only [hostCount, List.countP_append, List.countP_cons, List.countP_nil, hhost] at hr ⊢
    simpa using hr
  · intro r peerID now hr hne
    have hle := hostCount_filterPlayers_le r.Players peerID
    exact hostCount_promoteHost (by omega) hne
  · intro r r1 hr _ hhost _
    show hostCount r1.Players = 1
    rw [hostCount_congr hhost]; exact hr

/-- C10. Capacity and non-emptiness: in every reachable registry every stored
room has at least one player and at most `MaxPlayers` players. -/
theorem reachable_capacity (s : Server) (h : Reachable s) :
    ∀ x ∈ s.rooms, 1 ≤ x.2.Players.length ∧ (x.2.Players.length : Int) ≤ x.2.MaxPlayers := by
  refine ReachableBy.induction
    (fun s => ∀ x ∈ s.rooms,
      1 ≤ x.2.Players.length ∧ (x.2.Players.length : Int) ≤ x.2.MaxPlayers)
    (by intro x hx; cases hx) ?_ s h
  intro s e s1 hs _ ht
  refine ht.rooms_all
    (fun r => 1 ≤ r.Players.length ∧ (r.Players.length : Int) ≤ r.MaxPlayers) hs ?_ ?_ ?_ ?_
  · intro r pl hpl _ h2
    simp only [hpl, List.length_singleton]
    constructor
    · omega
    · push_cast; omega
  · intro peerID env rnd clock r pl _ _ _ hr hlt _ _
    simp only [List.length_append, List.length_singleton]
    constructor
    · omega
    · push_cast; omega
  · intro r peerID now hr hne
    simp only [length_promoteHost]
    have hle : (filterPlayers r.Players peerID).length ≤ r.Players.length :=
      List.length_filter_le _ _
    have hpos : 0 < (filterPlayers r.Players peerID).length := List.length_pos.mpr hne
    constructor
    · omega
    · have := hr.2
      omega
  · intro r r1 hr hpid _ hmax
    have hlen := length_eq_of_map_eq hpid
    simp only [hlen, hmax]
    exact hr

/-- C8 (amended). No duplicate membership, as long as no `room.join` is
handled for a caller that the named room already lists: in every registry
reachable by such runs each room holds at most one player record per peer
id. -/
theorem reachable_no_duplicate_member (s : Server)
    (h : ReachableBy (fun s e => joinsFresh s e = true) s) :
    ∀ x ∈ s.rooms, (x.2.Players.map (fun pl => pl.PeerID)).Nodup := by
  refine ReachableBy.induction
    (fun s => ∀ x ∈ s.rooms, (x.2.Players.map (fun pl => pl.PeerID)).Nodup)
    (by intro x hx; cases hx) ?_ s h
  intro s e s1 hs hok ht
  refine ht.rooms_all (fun r => (r.Players.map (fun pl => pl.PeerID)).Nodup) hs ?_ ?_ ?_ ?_
  · intro r pl hpl _ _
    simp [hpl]
  · intro peerID env rnd clock r pl he hty hr hn _ hpid _
    subst he
    have hfresh := joinsFresh_spec hok hty hr
    simp only [List.map_append, List.map_cons, List.map_nil]
    refine List.Nodup.append hn (List.nodup_singleton _) ?_
    intro a ha hb
    simp only [List.mem_singleton] at hb
    obtain ⟨ql, hql, hqa⟩ := List.mem_map.mp ha
    exact hfresh ql hql (by rw [hqa, hb, hpid])
  · intro r peerID now hn _
    simp only [map_peerID_promoteHost]
    exact List.Nodup.sublist ((List.filter_sublist r.Players).map _) hn
  · intro r r1 hn hpid _ _
    simp only [hpid]
    exact hn

/-- C9 (amended). At most one room per peer, as long as every `room.create`
and `room.join` comes from a peer that no registered room lists: in every
registry reachable by such runs a player record of peer `p` in a stored room
means that the index maps `p` to that room, so `p` is a player of at most one
stored room, and after `removePeer p` no stored room holds a record of
`p`. -/
theorem reachable_one_room_per_peer (s : Server)
    (h : ReachableBy (fun s e => entersFresh s e = true) s) :
    (∀ x ∈ s.rooms, ∀ pl ∈ x.2.Players, mapGet s.peerToRoom pl.PeerID = some x.1) ∧
    (∀ x ∈ s.rooms, ∀ y ∈ s.rooms, ∀ pl ∈ x.2.Players, ∀ ql ∈ y.2.Players,
      pl.PeerID = ql.PeerID → x = y) ∧
    (∀ p now, ∀ x ∈ (removePeer s p now).1.rooms, ∀ pl ∈ x.2.Players, pl.PeerID ≠ p) := by
  have hinv := reachableBy_indexInv s h
  refine ⟨hinv.2, ?_, ?_⟩
  · intro x hx y hy pl hpl ql hql hid
    have h1 := hinv.2 x hx pl hpl
    have h2 := hinv.2 y hy ql hql
    rw [hid, h2] at h1
    exact eq_of_key_eq_of_nodup hinv.1 hx hy (by simpa using h1.symm)
  · intro p now x hx pl hpl hid
    have hinv1 : IndexInv (removePeer s p now).1 :=
      Transition.indexInv (removePeer_transition s (.remove p now) p now) rfl hinv
    have h1 := hinv1.2 x hx pl hpl
    rw [removePeer_peerToRoom, hid, mapGet_mapDelete] at h1
    simp at h1

/-! ### Sample runs: witnesses and counterexamples -/

theorem run_lobbyEvents : run newServer Sample.lobbyEvents = Sample.lobby := by
  decide

theorem run_inGame :
    run newServer
        (Sample.lobbyEvents ++ [.message "peer-1" (Sample.startEnv true) 0 Sample.clock])
      = Sample.inGame := by
  decide

theorem reachable_lobby : Reachable Sample.lobby :=
  run_lobbyEvents ▸ reachable_run Sample.lobbyEvents

theorem reachable_inGame : Reachable Sample.inGame :=
  run_inGame ▸ reachable_run _

/-- Witness of C3 on the sample lobby. -/
theorem reachable_single_host_witness :
    Reachable Sample.lobby ∧ ∀ x ∈ Sample.lobby.rooms, hostCount x.2.Players = 1 :=
  ⟨reachable_lobby, reachable_single_host Sample.lobby reachable_lobby⟩

/-- Witness of C10 on the sample room after the match has started. -/
theorem reachable_capacity_witness :
    Reachable Sample.inGame ∧
    ∀ x ∈ Sample.inGame.rooms,
      1 ≤ x.2.Players.length ∧ (x.2.Players.length : Int) ≤ x.2.MaxPlayers :=
  ⟨reachable_inGame, reachable_capacity Sample.inGame reachable_inGame⟩

/-- Witness of C4: `peer-3` asks to join the full sample room. -/
theorem handleMessage_join_full_witness :
    mapGet Sample.lobby.rooms Sample.roomID = some Sample.lobbyRoom ∧
    (handleMessage Sample.lobby "peer-3" (Sample.joinEnv "Cy") 0 Sample.clock).1
      = Sample.lobby ∧
    (handleMessage Sample.lobby "peer-3" (Sample.joinEnv "Cy") 0 Sample.clock).2
      = [⟨"peer-3", "room.full", .roomFull Sample.roomID 2 2, "j1"⟩] :=
  have h := handleMessage_join_full Sample.lobby "peer-3" ⟨"peer-3", false⟩
    (Sample.joinEnv "Cy") 0 Sample.clock Sample.lobbyRoom
    (by decide) (by decide) (by decide) (by decide)
  ⟨by decide, h.1, h.2.2 rfl⟩

/-- Counterexample to C5 as stated: the sample room is reachable, in-game and
full, and a `room.join` naming it is answered with `room.full`, not with an
`error` envelope of code `forbidden`. -/
theorem join_in_game_counterexample :
    Reachable Sample.inGame ∧
    (∃ r, mapGet Sample.inGame.rooms Sample.roomID = some r ∧ r.Status = "in-game") ∧
    (handleMessage Sample.inGame "peer-3" (Sample.joinEnv "Cy") 0 Sample.clock).2
      = [⟨"peer-3", "room.full", .roomFull Sample.roomID 2 2, "j1"⟩] :=
  ⟨reachable_inGame, ⟨_, rfl, rfl⟩, by decide⟩

/-- Witness of C5 (amended): with a free slot in the in-game room the answer
is the error `forbidden`, and the registry is unchanged. -/
theorem handleMessage_join_in_game_witness :
    (handleMessage Sample.inGameOpen "peer-3" (Sample.joinEnv "Cy") 0 Sample.clock).1
      = Sample.inGameOpen ∧
    (handleMessage Sample.inGameOpen "peer-3" (Sample.joinEnv "Cy") 0 Sample.clock).2
      = [⟨"peer-3", "error", .error "forbidden" "Match already started", "j1"⟩] :=
  have h := handleMessage_join_in_game Sample.inGameOpen "peer-3" ⟨"peer-3", false⟩
    (Sample.joinEnv "Cy") 0 Sample.clock
    { Sample.lobbyRoom with Status := "in-game", MaxPlayers := 3 }
    (by decide) (by decide) (by decide) (by decide)
  ⟨h.1, h.2.trans (by decide)⟩

/-- Witness of C7: in the sample lobby one player is ready; the host's
`match.start` is refused without `forceStart` and starts the match with it.
Once `peer-2` has declared itself ready, two players are ready and the host's
`match.start` without any `forceStart` field starts the match. -/
theorem handleMessage_match_start_witness :
    (handleMessage Sample.lobby "peer-1" (Sample.startEnv false) 0 Sample.clock)
      = (Sample.lobby,
          [⟨"peer-1", "error", .error "bad_request" "Need at least 2 ready players", "m1"⟩]) ∧
    (handleMessage Sample.lobby "peer-1" (Sample.startEnv true) 0 Sample.clock).1
      = Sample.inGame ∧
    (handleMessage Sample.lobby "peer-2" Sample.readyEnv 0 Sample.clock).1
      = Sample.readyLobby ∧
    (handleMessage Sample.readyLobby "peer-1" Sample.plainStartEnv 0 Sample.clock).1
      = { Sample.readyLobby with
          rooms := [(Sample.roomID, { Sample.readyRoom with Status := "in-game" })] } ∧
    (handleMessage Sample.readyLobby "peer-1" (Sample.startEnv false) 0 Sample.clock).1
      = { Sample.readyLobby with
          rooms := [(Sample.roomID, { Sample.readyRoom with Status := "in-game" })] } :=
  have hno := (handleMessage_match_start Sample.lobby "peer-1" Sample.roomID
    ⟨"peer-1", false⟩ (Sample.startEnv false) 0 Sample.clock Sample.lobbyRoom 0
    ⟨"peer-1", [65, 110, 110], true, true⟩
    (by decide) (by decide) (by decide) (by decide) (by decide) (by decide)).2.1
    (by decide)
  have hyes := ((handleMessage_match_start Sample.lobby "peer-1" Sample.roomID
    ⟨"peer-1", false⟩ (Sample.startEnv true) 0 Sample.clock Sample.lobbyRoom 0
    ⟨"peer-1", [65, 110, 110], true, true⟩
    (by decide) (by decide) (by decide) (by decide) (by decide) (by decide)).1
    (Or.inl (by decide))).1
  have hready := ((handleMessage_match_start Sample.readyLobby "peer-1" Sample.roomID
    ⟨"peer-1", false⟩ Sample.plainStartEnv 0 Sample.clock Sample.readyRoom 0
    ⟨"peer-1", [65, 110, 110], true, true⟩
    (by decide) (by decide) (by decide) (by decide) (by decide) (by decide)).1
    (Or.inr (by decide))).1
  have hready2 := ((handleMessage_match_start Sample.readyLobby "peer-1" Sample.roomID
    ⟨"peer-1", false⟩ (Sample.startEnv false) 0 Sample.clock Sample.readyRoom 0
    ⟨"peer-1", [65, 110, 110], true, true⟩
    (by decide) (by decide) (by decide) (by decide) (by decide) (by decide)).1
    (Or.inr (by decide))).1
  ⟨Prod.ext hno.1 (hno.2.trans (by decide)), hyes.trans (by decide), by decide,
    hready.trans (by decide), hready2.trans (by decide)⟩

/-- Witness of C6: the host `peer-1` of the sample lobby disconnects; `peer-2`
is the new host and the only recipient of the new state. -/
theorem removePeer_host_failover_witness :
    mapGet (removePeer Sample.lobby "peer-1" 7).1.rooms Sample.roomID
      = some { Sample.lobbyRoom with
          Players := [⟨"peer-2", [66, 111, 98], false, true⟩], LastActive := 7 } ∧
    (removePeer Sample.lobby "peer-1" 7).2.map (fun d => (d.peer, d.msgType))
      = [("peer-2", "room.state")] := by
  obtain ⟨q, qs, hf, _, hroom, hout⟩ :=
    removePeer_host_failover Sample.lobby "peer-1" Sample.roomID Sample.lobbyRoom 7
      (by decide) (by decide) (by decide) (by decide)
  have hq : Sample.lobbyRoom.Players.filter (fun pl => decide (pl.PeerID ≠ "peer-1"))
      = [⟨"peer-2", [66, 111, 98], false, false⟩] := by decide
  rw [hq] at hf
  simp only [List.cons.injEq] at hf
  obtain ⟨h1, h2⟩ := hf
  subst h1; subst h2
  exact ⟨hroom, by rw [hout]; decide⟩

/-- Counterexample to C8 as stated: after a connection creates a room and
then joins it, the room lists that peer twice. -/
theorem duplicate_member_counterexample :
    Reachable (run newServer Sample.rejoinEvents) ∧
    ∃ x ∈ (run newServer Sample.rejoinEvents).rooms,
      ¬ (x.2.Players.map (fun pl => pl.PeerID)).Nodup :=
  ⟨reachable_run _, by decide⟩

/-- Witness of C8 (amended) on the sample lobby. -/
theorem reachable_no_duplicate_member_witness :
    ReachableBy (fun s e => joinsFresh s e = true) (run newServer Sample.lobbyEvents) ∧
    ∀ x ∈ (run newServer Sample.lobbyEvents).rooms,
      (x.2.Players.map (fun pl => pl.PeerID)).Nodup :=
  have h := reachableBy_of_runAllowed joinsFresh Sample.lobbyEvents newServer
    ReachableBy.init (by decide)
  ⟨h, reachable_no_duplicate_member _ h⟩

/-- Counterexample to C9 as stated: after a connection creates two rooms it
is a player of both, and after its removal the first room still lists
it. -/
theorem two_rooms_counterexample :
    Reachable (run newServer Sample.twoRoomsEvents) ∧
    (∃ x ∈ (run newServer Sample.twoRoomsEvents).rooms,
      ∃ y ∈ (run newServer Sample.twoRoomsEvents).rooms,
        x.1 ≠ y.1 ∧ "peer-1" ∈ x.2.Players.map (fun pl => pl.PeerID) ∧
        "peer-1" ∈ y.2.Players.map (fun pl => pl.PeerID)) ∧
    (∃ x ∈ (removePeer (run newServer Sample.twoRoomsEvents) "peer-1" 7).1.rooms,
      "peer-1" ∈ x.2.Players.map (fun pl => pl.PeerID)) :=
  ⟨reachable_run _, by decide, by decide⟩

/-- Witness of C9 (amended) on the sample lobby. -/
theorem reachable_one_room_per_peer_witness :
    ReachableBy (fun s e => entersFresh s e = true) (run newServer Sample.lobbyEvents) ∧
    ∀ x ∈ (removePeer (run newServer Sample.lobbyEvents) "peer-2" 7).1.rooms,
      ∀ pl ∈ x.2.Players, pl.PeerID ≠ "peer-2" :=
  have h := reachableBy_of_runAllowed entersFresh Sample.lobbyEvents newServer
    ReachableBy.init (by decide)
  ⟨h, (reachable_one_room_per_peer _ h).2.2 "peer-2" 7⟩

/-! ### Oversized frames -/

theorem readBody_of_layout (opcode : Nat) (masked : Bool) (key body rest : List Nat)
    (hk : key.length = if masked then 4 else 0) :
    readBody opcode masked body.length (key ++ (body ++ rest))
      = .ok (opcode, if masked then xorMask key 0 body else body, rest) := by
  cases masked with
  | false =>
    simp only [Bool.false_eq_true, if_false] at hk ⊢
    rw [List.length_eq_zero.mp hk]
    exact readBody_plain opcode body rest
  | true =>
    simp only [if_true] at hk ⊢
    have h1 := readFull_append_of_length key (body ++ rest) hk
    cases body with
    | nil =>
      simp only [List.nil_append] at h1
      simp [readBody, h1, xorMask]
    | cons b bs =>
      have h2 := readFull_append (b :: bs) rest
      simp only [readBody, if_true, h1, List.length_cons, Nat.zero_lt_succ] at h2 ⊢
      rw [h2]

/-- C20. Oversized frames: when the second header byte has length code 127 and
eight length bytes follow, a big-endian length above `2^31 - 1` makes
`readWSFrame` return the error `frameTooLarge` (and so no payload) whatever
bytes follow; a length of at most `2^31 - 1`, followed by the mask key when
the MASK bit is set and by that many payload bytes, makes it succeed with a
payload of exactly that length, leaving the bytes after the frame unread. -/
theorem readWSFrame_length64 (b0 b1 : Nat) (ext : List Nat)
    (hcode : b1 &&& 0x7F = 127) (hext : ext.length = 8) :
    (maxInt32 < getUint ext →
      ∀ tail, readWSFrame (b0 :: b1 :: (ext ++ tail)) = .error .frameTooLarge) ∧
    (getUint ext ≤ maxInt32 →
      ∀ key body rest, body.length = getUint ext →
        (key.length = if decide ((b1 &&& 0x80) ≠ 0) then 4 else 0) →
        ∃ payload,
          readWSFrame (b0 :: b1 :: (ext ++ (key ++ (body ++ rest))))
            = .ok (b0 &&& 0x0F, payload, rest) ∧
          payload.length = getUint ext ∧
          payload = if decide ((b1 &&& 0x80) ≠ 0) then xorMask key 0 body else body) := by
  have hne : ¬ (127 = 126) := by decide
  constructor
  · intro hbig tail
    rw [readWSFrame_of_header]
    have h8 := readFull_append_of_length ext tail hext
    simp only [hcode, hne, if_false, if_true, h8, hbig]
  · intro hsmall key body rest hlen hk
    rw [readWSFrame_of_header]
    have h8 := readFull_append_of_length ext (key ++ (body ++ rest)) hext
    have hnb : ¬ (getUint ext > maxInt32) := by omega
    simp only [hcode, hne, if_false, if_true, h8, hnb]
    rw [← hlen, readBody_of_layout _ _ key body rest hk]
    refine ⟨_, rfl, ?_, rfl⟩
    split_ifs
    · exact length_xorMask key 0 body
    · rfl

/-- Witness of C20: a binary frame announcing `2^31` bytes is refused, one
announcing three bytes is read. -/
theorem readWSFrame_length64_witness :
    readWSFrame (0x82 :: 127 :: ([0, 0, 0, 0, 128, 0, 0, 0] ++ [1, 2, 3]))
      = .error .frameTooLarge ∧
    readWSFrame (0x82 :: 127 :: ([0, 0, 0, 0, 0, 0, 0, 3] ++ ([] ++ ([7, 8, 9] ++ [4]))))
      = .ok (2, [7, 8, 9], [4]) := by
  refine ⟨(readWSFrame_length64 0x82 127 [0, 0, 0, 0, 128, 0, 0, 0] (by decide)
      (by decide)).1 (by decide) [1, 2, 3], ?_⟩
  obtain ⟨payload, h1, _, h3⟩ :=
    (readWSFrame_length64 0x82 127 [0, 0, 0, 0, 0, 0, 0, 3] (by decide) (by decide)).2
      (by decide) [] [7, 8, 9] [4] (by decide) (by decide)
  rw [h1, h3]
  rfl

/-! ### Room list -/

theorem firstHost_eq_find (players : List Player) :
    firstHost players = players.find? (fun pl => pl.IsHost) := by
  induction players with
  | nil => rfl
  | cons q qs ih =>
    cases hq : q.IsHost <;> simp [firstHost, List.find?, hq, ih]

theorem openRoomSummary_eq (r : Room) :
    openRoomSummary r
      = if r.Status = "lobby" ∧ (r.Players.length : Int) < r.MaxPlayers then
          some ⟨r.RoomID, r.RoomName,
            (match r.Players.find? (fun pl => pl.IsHost) with
              | some pl => pl.Name
              | none => goBytes "Host"),
            r.Players.length, r.MaxPlayers, r.Status⟩
        else none := by
  unfold openRoomSummary
  by_cases hc : r.Status = "lobby" ∧ (r.Players.length : Int) < r.MaxPlayers
  · have hn : ¬ (r.Status ≠ "lobby" ∨ (r.Players.length : Int) ≥ r.MaxPlayers) := by
      rintro (h | h)
      · exact h hc.1
      · omega
    rw [if_neg hn, if_pos hc, firstHost_eq_find]
  · have hn : r.Status ≠ "lobby" ∨ (r.Players.length : Int) ≥ r.MaxPlayers := by
      by_cases h1 : r.Status = "lobby"
      · exact Or.inr (by
          have : ¬ ((r.Players.length : Int) < r.MaxPlayers) := fun h => hc ⟨h1, h⟩
          omega)
      · exact Or.inl h1
    rw [if_pos hn, if_neg hc]

/-- C15. `listOpenRooms` is exact: the list holds, in map order, one summary
for each stored room whose status is `lobby` and whose player list is shorter
than `MaxPlayers`, and nothing else; the summary carries the room's id, name,
status and `MaxPlayers`, the length of the player list as player count, and
as host name the name of the first player flagged host, or `Host` when none
is flagged. -/
theorem listOpenRooms_exact (s : Server) :
    listOpenRooms s
      = (s.rooms.filter fun e =>
          decide (e.2.Status = "lobby" ∧ (e.2.Players.length : Int) < e.2.MaxPlayers)).map
        fun e =>
          (⟨e.2.RoomID, e.2.RoomName,
            (match e.2.Players.find? (fun pl => pl.IsHost) with
              | some pl => pl.Name
              | none => goBytes "Host"),
            e.2.Players.length, e.2.MaxPlayers, e.2.Status⟩ : RoomSummary) := by
  unfold listOpenRooms
  induction s.rooms with
  | nil => rfl
  | cons e es ih =>
    rw [List.filterMap_cons, openRoomSummary_eq, List.filter_cons]
    by_cases hc : e.2.Status = "lobby" ∧ (e.2.Players.length : Int) < e.2.MaxPlayers
    · rw [if_pos hc, if_pos (decide_eq_true hc), List.map_cons, ih]
    · rw [if_neg hc, if_neg (by simpa using hc)]
      exact ih

/-! ### Rejections -/

/-- C14 (amended). The three rejections of a `room.join` leave the registry
unchanged and are sent to the caller only: an unknown room id is answered
with an envelope of type `room.not_found` carrying the room id, a room at
capacity with one of type `room.full` carrying the room id and the current
and maximum player counts, and a room with a free slot whose status is not
`lobby` with one of type `error` carrying the code `forbidden` and a
message. -/
theorem handleMessage_join_rejections (s : Server) (peerID : String) (p : Peer)
    (env : Envelope) (rnd : Nat) (clock : Nat → Int)
    (hp : mapGet s.peers peerID = some p) (ht : env.Typ = "room.join") :
    (mapGet s.rooms (getString env.Payload "roomId" "") = none →
      handleMessage s peerID env rnd clock
        = (s, p.send "room.not_found" (.roomRef (getString env.Payload "roomId" ""))
            env.RequestID)) ∧
    (∀ r, mapGet s.rooms (getString env.Payload "roomId" "") = some r →
      (r.Players.length : Int) ≥ r.MaxPlayers →
      handleMessage s peerID env rnd clock
        = (s, p.send "room.full"
            (.roomFull (getString env.Payload "roomId" "") r.Players.length r.MaxPlayers)
            env.RequestID)) ∧
    (∀ r, mapGet s.rooms (getString env.Payload "roomId" "") = some r →
      (r.Players.length : Int) < r.MaxPlayers → r.Status ≠ "lobby" →
      handleMessage s peerID env rnd clock
        = (s, p.send "error" (.error "forbidden" "Match already started")
            env.RequestID)) := by
  refine ⟨fun hr => ?_, fun r hr hfull => ?_, fun r hr hfree hst => ?_⟩
  · simp [handleMessage, hp, ht, handleJoin, hr]
  · simp [handleMessage, hp, ht, handleJoin, hr, hfull]
  · have hnf : ¬ ((r.Players.length : Int) ≥ r.MaxPlayers) := by omega
    simp [handleMessage, hp, ht, handleJoin, hr, hnf, hst, Peer.sendError]

theorem not_known_type {t : String} (h : t ∉ knownTypes) :
    t ≠ "room.list.request" ∧ t ≠ "room.create" ∧ t ≠ "room.join" ∧ t ≠ "room.leave" ∧
    t ≠ "peer.ready" ∧ t ≠ "peer.rename" ∧ t ≠ "chat.msg" ∧ t ≠ "match.start" ∧
    t ≠ "game.input" ∧ t ≠ "shop.buy" ∧ t ≠ "shop.sell" ∧ t ≠ "shop.done" ∧
    t ≠ "game.snapshot" := by
  simp only [knownTypes, List.mem_cons, List.mem_singleton, List.mem_nil_iff, or_false,
    not_or] at h
  exact h

/-- C13 (amended). An envelope whose type is none of the thirteen handled ones
never changes the registry, and the registered caller is sent one error: the
code is `bad_request` with the message `Unknown type: ` followed by the type
when the caller's indexed room exists and lists the caller, `room_not_found`
when the caller has no index entry or the indexed room is not stored, and
`forbidden` when the indexed room does not list the caller. -/
theorem handleMessage_unknown_type (s : Server) (peerID : String) (p : Peer)
    (env : Envelope) (rnd : Nat) (clock : Nat → Int)
    (hp : mapGet s.peers peerID = some p) (ht : env.Typ ∉ knownTypes) :
    (handleMessage s peerID env rnd clock).1 = s ∧
    (handleMessage s peerID env rnd clock).2
      = match mapGet s.rooms ((mapGet s.peerToRoom peerID).getD "") with
        | none => p.send "error" (.error "room_not_found" "Room no longer exists")
            env.RequestID
        | some r =>
          match findPlayer r.Players peerID with
          | none => p.send "error" (.error "forbidden" "Unknown player") env.RequestID
          | some _ =>
            p.send "error" (.error "bad_request" ("Unknown type: " ++ env.Typ))
              env.RequestID := by
  obtain ⟨h1, h2, h3, h4, h5, h6, h7, h8, h9, h10, h11, h12, h13⟩ := not_known_type ht
  simp only [handleMessage, hp, h1, h2, h3, h4, if_false, handleMember]
  cases hr : mapGet s.rooms ((mapGet s.peerToRoom peerID).getD "") with
  | none => exact ⟨rfl, rfl⟩
  | some r =>
    dsimp only
    cases hpl : findPlayer r.Players peerID with
    | none => exact ⟨rfl, rfl⟩
    | some ip =>
      dsimp only
      simp [h5, h6, h7, h8, h9, h10, h11, h12, h13, Peer.sendError]

/-! ### Relay to the host -/

/-- C16. Client-to-host relay: for a `game.input`, `shop.buy`, `shop.sell` or
`shop.done` of a caller whose indexed room lists it, the registry is
unchanged; a caller flagged host is sent the error `forbidden` and nothing is
forwarded; otherwise, with `hostID` the peer id of the first player flagged
host, a registered host peer is sent one message of the same type carrying
the caller's peer id and nobody else is sent anything, and when no peer is
registered under `hostID` the caller is sent the error `room_not_found`. -/
theorem handleMessage_relay (s : Server) (peerID roomID : String) (p : Peer)
    (env : Envelope) (rnd : Nat) (clock : Nat → Int) (r : Room) (playerIdx : Nat)
    (pl : Player)
    (hp : mapGet s.peers peerID = some p)
    (ht : env.Typ = "game.input" ∨ env.Typ = "shop.buy" ∨ env.Typ = "shop.sell"
      ∨ env.Typ = "shop.done")
    (hidx : mapGet s.peerToRoom peerID = some roomID)
    (hr : mapGet s.rooms roomID = some r)
    (hpl : findPlayer r.Players peerID = some (playerIdx, pl)) :
    (handleMessage s peerID env rnd clock).1 = s ∧
    (pl.IsHost = true →
      (handleMessage s peerID env rnd clock).2
        = p.send "error" (.error "forbidden" "Host should apply actions locally")
            env.RequestID) ∧
    (pl.IsHost = false →
      (mapGet s.peers
          (match r.Players.find? (fun rp => rp.IsHost) with
            | some rp => rp.PeerID
            | none => "") = none →
        (handleMessage s peerID env rnd clock).2
          = p.send "error" (.error "room_not_found" "Host unavailable") env.RequestID) ∧
      (∀ hostPeer,
        mapGet s.peers
          (match r.Players.find? (fun rp => rp.IsHost) with
            | some rp => rp.PeerID
            | none => "") = some hostPeer →
        (handleMessage s peerID env rnd clock).2
          = hostPeer.send env.Typ
              (if env.Typ = "game.input" then .input peerID env.Payload
               else if env.Typ = "shop.done" then
                 .shopDone peerID roomID (getBool env.Payload "done")
               else .shop peerID roomID (getString env.Payload "weaponId" "")) "" ∧
        (hostPeer.closed = false →
          ∃ payload, (handleMessage s peerID env rnd clock).2
            = [⟨hostPeer.id, env.Typ, payload, ""⟩]))) := by
  have hne : env.Typ ≠ "room.list.request" ∧ env.Typ ≠ "room.create" ∧
      env.Typ ≠ "room.join" ∧ env.Typ ≠ "room.leave" ∧ env.Typ ≠ "peer.ready" ∧
      env.Typ ≠ "peer.rename" ∧ env.Typ ≠ "chat.msg" ∧ env.Typ ≠ "match.start" := by
    rcases ht with h | h | h | h <;> rw [h] <;> decide
  obtain ⟨h1, h2, h3, h4, h5, h6, h7, h8⟩ := hne
  have hres : handleMessage s peerID env rnd clock = handleRelay s p peerID roomID r pl env := by
    simp [handleMessage, hp, h1, h2, h3, h4, handleMember, hidx, hr, hpl, h5, h6, h7, h8, ht]
  rw [hres]
  refine ⟨handleRelay_fst _ _ _ _ _ _ _, fun hh => ?_, fun hh => ⟨fun hnone => ?_, ?_⟩⟩
  · simp [handleRelay, hh, Peer.sendError]
  · rw [← firstHost_eq_find] at hnone
    simp [handleRelay, hh, hnone, Peer.sendError]
  · intro hostPeer hsome
    rw [← firstHost_eq_find] at hsome
    have hout : (handleRelay s p peerID roomID r pl env).2
        = hostPeer.send env.Typ
            (if env.Typ = "game.input" then .input peerID env.Payload
             else if env.Typ = "shop.done" then
               .shopDone peerID roomID (getBool env.Payload "done")
             else .shop peerID roomID (getString env.Payload "weaponId" "")) "" := by
      rcases ht with h | h | h | h <;> simp [handleRelay, hh, hsome, h]
    refine ⟨hout, fun hopen => ?_⟩
    rw [hout]
    simp only [Peer.send, hopen, Bool.false_eq_true, if_false]
    exact ⟨_, rfl⟩

/-! ### Creating and joining a room -/

theorem truncBytes_eq_take (n : Nat) (x : List Nat) : truncBytes n x = x.take n := by
  unfold truncBytes
  split_ifs with h
  · rfl
  · exact (List.take_of_length_le (by omega)).symm

theorem utf8Bytes_ne_nil (c : Nat) : utf8Bytes c ≠ [] := by
  unfold utf8Bytes
  split_ifs <;> simp

theorem goBytes_eq_nil (t : String) : goBytes t = [] ↔ t = "" := by
  obtain ⟨cs⟩ := t
  cases cs with
  | nil => simp [goBytes]
  | cons c cs =>
    have hne := utf8Bytes_ne_nil c.toNat
    constructor
    · intro h
      simp only [goBytes, List.foldr_cons, List.append_eq_nil] at h
      exact absurd h.1 hne
    · intro h
      have := congrArg String.data h
      simp at this

theorem take16_goBytes_eq_nil (t : String) : truncBytes 16 (goBytes t) = [] ↔ t = "" := by
  rw [truncBytes_eq_take, ← goBytes_eq_nil]
  cases goBytes t with
  | nil => simp
  | cons b bs => simp

theorem getString_str (m : Payload) (key v : String)
    (h : mapGet m key = some (.str v)) : getString m key "" = trimSpace v := by
  unfold getString
  rw [h]
  dsimp only
  split_ifs with h0
  · exact h0.symm
  · rfl

/-! ### Trimming, UTF-8 bytes and decimal integers -/

theorem isSpace_iff (c : Char) : isSpace c = true ↔ c.toNat ∈ whiteSpace := by
  simp only [isSpace, whiteSpace, Bool.or_eq_true, beq_iff_eq, Bool.and_eq_true,
    decide_eq_true_eq, List.mem_cons, List.mem_singleton, List.not_mem_nil, or_false]
  omega

theorem dropWhile_isSpace_pad (pad rest : List Char)
    (h : ∀ c ∈ pad, c.toNat ∈ whiteSpace) :
    (pad ++ rest).dropWhile isSpace = rest.dropWhile isSpace := by
  induction pad with
  | nil => rfl
  | cons c cs ih =>
    have hc : isSpace c = true := (isSpace_iff c).mpr (h c (List.mem_cons_self _ _))
    simp only [List.cons_append, List.dropWhile_cons, hc, if_true]
    exact ih (fun d hd => h d (List.mem_cons_of_mem _ hd))

theorem dropWhile_isSpace_core (core : List Char)
    (h : ∀ c, core.head? = some c → c.toNat ∉ whiteSpace) :
    core.dropWhile isSpace = core := by
  cases core with
  | nil => rfl
  | cons c cs =>
    have hc : ¬ isSpace c = true := fun hs => h c rfl ((isSpace_iff c).mp hs)
    simp [List.dropWhile_cons, hc]

theorem trimSpace_of_padding (v : String) (pad1 core pad2 : List Char)
    (hv : v.data = pad1 ++ (core ++ pad2))
    (h1 : ∀ c ∈ pad1, c.toNat ∈ whiteSpace) (h2 : ∀ c ∈ pad2, c.toNat ∈ whiteSpace)
    (hhead : ∀ c, core.head? = some c → c.toNat ∉ whiteSpace)
    (hlast : ∀ c, core.getLast? = some c → c.toNat ∉ whiteSpace) :
    trimSpace v = ⟨core⟩ := by
  unfold trimSpace
  congr 1
  rw [hv, dropWhile_isSpace_pad pad1 _ h1]
  have hrev : (pad2.reverse ++ core.reverse).dropWhile isSpace = core.reverse := by
    rw [dropWhile_isSpace_pad pad2.reverse _ (fun c hc => h2 c (List.mem_reverse.mp hc))]
    apply dropWhile_isSpace_core
    intro c hc
    apply hlast c
    rw [List.head?_reverse] at hc
    exact hc
  cases core with
  | nil =>
    simp only [List.nil_append]
    have h0 : pad2.dropWhile isSpace = [] := by
      have := dropWhile_isSpace_pad pad2 [] h2
      simpa using this
    rw [h0]
    rfl
  | cons c cs =>
    have hc : ¬ isSpace c = true := fun hs => hhead c rfl ((isSpace_iff c).mp hs)
    have h0 : ((c :: cs) ++ pad2).dropWhile isSpace = (c :: cs) ++ pad2 := by
      simp [List.dropWhile_cons, hc]
    rw [h0, List.reverse_append, hrev, List.reverse_reverse]


theorem and63_or128 (y : Nat) (hy : y < 256) : (y &&& 63 ||| 128) = 0x80 + y % 64 := by
  interval_cases y <;> rfl

theorem and31_or192 (y : Nat) (hy : y < 256) : (y &&& 31 ||| 192) = 0xC0 + y % 32 := by
  interval_cases y <;> rfl

theorem and15_or224 (y : Nat) (hy : y < 256) : (y &&& 15 ||| 224) = 0xE0 + y % 16 := by
  interval_cases y <;> rfl

theorem and7_or240 (y : Nat) (hy : y < 256) : (y &&& 7 ||| 240) = 0xF0 + y % 8 := by
  interval_cases y <;> rfl

theorem toNat_and_or (x : Nat) (m o : UInt8) :
    (UInt8.ofNat x &&& m ||| o).toNat = (x % 256 &&& m.toNat ||| o.toNat) := by
  show ((BitVec.ofNat 8 x &&& m.toBitVec ||| o.toBitVec)).toNat = _
  simp [UInt8.toNat]

theorem toNat_shiftRight (a : UInt32) (k : UInt32) (hk : k.toNat < 32) :
    (a >>> k).toNat = a.toNat / 2 ^ k.toNat := by
  show (a.toBitVec >>> (k.mod 32).toBitVec).toNat = _
  have : (k.mod 32).toBitVec.toNat = k.toNat := by
    show (k.toBitVec % (32 : UInt32).toBitVec).toNat = _
    simp [BitVec.toNat_umod]
    exact Nat.mod_eq_of_lt hk
  simp [this, Nat.shiftRight_eq_div_pow, UInt32.toNat]

theorem utf8Bytes_eq_utf8EncodeChar (c : Char) :
    utf8Bytes c.toNat = (String.utf8EncodeChar c).map UInt8.toNat := by
  have hlt : c.val.toNat < 1114112 := by
    have := c.valid
    rcases this with h | h
    · have : c.val.toNat < 55296 := h
      omega
    · exact h.2
  have h6 := toNat_shiftRight c.val 6 (by decide)
  have h12 := toNat_shiftRight c.val 12 (by decide)
  have h18 := toNat_shiftRight c.val 18 (by decide)
  have e6 : (6 : UInt32).toNat = 6 := rfl
  have e12 : (12 : UInt32).toNat = 12 := rfl
  have e18 : (18 : UInt32).toNat = 18 := rfl
  rw [e6] at h6
  rw [e12] at h12
  rw [e18] at h18
  unfold String.utf8EncodeChar utf8Bytes Char.toNat
  simp only [UInt32.le_def, UInt32.toUInt8, Nat.toUInt8, BitVec.le_def]
  have c1 : (UInt32.toBitVec 127).toNat = 127 := rfl
  have c2 : (UInt32.toBitVec 2047).toNat = 2047 := rfl
  have c3 : (UInt32.toBitVec 65535).toNat = 65535 := rfl
  have d1 : c.val.toBitVec.toNat = c.val.toNat := rfl
  rw [c1, c2, c3, d1]
  generalize c.val.toNat = v at *
  have m63 : (63 : UInt8).toNat = 63 := rfl
  have m31 : (31 : UInt8).toNat = 31 := rfl
  have m15 : (15 : UInt8).toNat = 15 := rfl
  have m7 : (7 : UInt8).toNat = 7 := rfl
  have o128 : (128 : UInt8).toNat = 128 := rfl
  have o192 : (192 : UInt8).toNat = 192 := rfl
  have o224 : (224 : UInt8).toNat = 224 := rfl
  have o240 : (240 : UInt8).toNat = 240 := rfl
  have one : (UInt8.ofNat v).toNat = v % 256 := by
    show (BitVec.ofNat 8 v).toNat = _
    simp
  split_ifs <;>
    simp only [List.map_cons, List.map_nil, toNat_and_or, h6, h12, h18, m63, m31, m15, m7,
      o128, o192, o224, o240, one,
      and63_or128 _ (Nat.mod_lt _ (by decide)), and31_or192 _ (Nat.mod_lt _ (by decide)),
      and15_or224 _ (Nat.mod_lt _ (by decide)), and7_or240 _ (Nat.mod_lt _ (by decide))] <;>
    first
    | omega
    | (simp only [List.cons.injEq, and_true]; omega)

theorem goBytes_eq_toUTF8 (s : String) :
    goBytes s = (String.toUTF8 s).data.toList.map UInt8.toNat := by
  show goBytes s = (s.data.flatMap String.utf8EncodeChar).map UInt8.toNat
  unfold goBytes
  induction s.data with
  | nil => rfl
  | cons c cs ih =>
    rw [List.foldr_cons, ih, List.flatMap_cons, List.map_append, utf8Bytes_eq_utf8EncodeChar]

theorem getString_of_not_str (m : Payload) (key fallback : String)
    (h : ∀ v, List.lookup key m ≠ some (.str v)) : getString m key fallback = fallback := by
  unfold getString
  rw [mapGet_eq_lookup]
  cases hl : List.lookup key m with
  | none => rfl
  | some x =>
    cases x with
    | str v => exact absurd hl (h v)
    | bool b => rfl
    | num mant exp => rfl
    | other raw => rfl

theorem getString_of_padding (m : Payload) (key fallback v : String)
    (pad1 core pad2 : List Char) (hl : List.lookup key m = some (.str v))
    (hv : v.data = pad1 ++ (core ++ pad2))
    (h1 : ∀ c ∈ pad1, c.toNat ∈ whiteSpace) (h2 : ∀ c ∈ pad2, c.toNat ∈ whiteSpace)
    (hhead : ∀ c, core.head? = some c → c.toNat ∉ whiteSpace)
    (hlast : ∀ c, core.getLast? = some c → c.toNat ∉ whiteSpace) :
    getString m key fallback = if core = [] then fallback else ⟨core⟩ := by
  unfold getString
  rw [mapGet_eq_lookup, hl]
  simp only [trimSpace_of_padding v pad1 core pad2 hv h1 h2 hhead hlast]
  by_cases hc : core = []
  · subst hc
    simp
  · have hne : (⟨core⟩ : String) ≠ "" := fun h => hc (congrArg String.data h)
    rw [if_neg hne, if_neg hc]

/-- C12. Successful join: when the named room is stored, its player list is
shorter than `MaxPlayers` and its status is `lobby`, handling `room.join` for
a registered caller stores under that id the old room with the old player
list followed by one record of the caller, not ready and not host, and a new
last-activity time; the caller's index entry is set to the room id, and no
other room, index entry or peer changes. The name of the new record is a list
of bytes: when the field `playerName` is not a string, the UTF-8 bytes of
`Player` followed by the decimal old player count plus one; when it is a
string made of white space, a core that neither starts nor ends with white
space, and white space, the same default if the core is empty and otherwise
the first 16 UTF-8 bytes of the core. -/
theorem handleMessage_join_success (s : Server) (peerID : String) (p : Peer)
    (env : Envelope) (rnd : Nat) (clock : Nat → Int) (r : Room)
    (hp : mapGet s.peers peerID = some p) (ht : env.Typ = "room.join")
    (hr : mapGet s.rooms (getString env.Payload "roomId" "") = some r)
    (hfree : (r.Players.length : Int) < r.MaxPlayers) (hst : r.Status = "lobby") :
    ∃ name : List Nat,
      mapGet (handleMessage s peerID env rnd clock).1.rooms
          (getString env.Payload "roomId" "")
        = some { r with
            Players := r.Players ++ [⟨peerID, name, false, false⟩]
            LastActive := clock 0 } ∧
      mapGet (handleMessage s peerID env rnd clock).1.peerToRoom peerID
        = some (getString env.Payload "roomId" "") ∧
      (∀ k, k ≠ getString env.Payload "roomId" "" →
        mapGet (handleMessage s peerID env rnd clock).1.rooms k = mapGet s.rooms k) ∧
      (∀ q, q ≠ peerID →
        mapGet (handleMessage s peerID env rnd clock).1.peerToRoom q
          = mapGet s.peerToRoom q) ∧
      (handleMessage s peerID env rnd clock).1.peers = s.peers ∧
      ((∀ v, List.lookup "playerName" env.Payload ≠ some (.str v)) →
        name = (String.toUTF8 ("Player" ++ toString (r.Players.length + 1))).data.toList.map
          UInt8.toNat) ∧
      (∀ (v : String) (pad1 core pad2 : List Char),
        List.lookup "playerName" env.Payload = some (.str v) →
        v.data = pad1 ++ (core ++ pad2) →
        (∀ c ∈ pad1, c.toNat ∈ whiteSpace) → (∀ c ∈ pad2, c.toNat ∈ whiteSpace) →
        (∀ c, core.head? = some c → c.toNat ∉ whiteSpace) →
        (∀ c, core.getLast? = some c → c.toNat ∉ whiteSpace) →
        name = if core = [] then
            (String.toUTF8 ("Player" ++ toString (r.Players.length + 1))).data.toList.map
              UInt8.toNat
          else ((String.toUTF8 ⟨core⟩).data.toList.map UInt8.toNat).take 16) := by
  have hnf : ¬ ((r.Players.length : Int) ≥ r.MaxPlayers) := by omega
  have hname : (if truncBytes 16 (goBytes (getString env.Payload "playerName" "")) = [] then
        playerN (r.Players.length + 1)
      else truncBytes 16 (goBytes (getString env.Payload "playerName" "")))
      = (if getString env.Payload "playerName" "" = "" then playerN (r.Players.length + 1)
         else (goBytes (getString env.Payload "playerName" "")).take 16) := by
    by_cases h0 : getString env.Payload "playerName" "" = ""
    · rw [if_pos h0, if_pos ((take16_goBytes_eq_nil _).mpr h0)]
    · rw [if_neg h0, if_neg (fun h => h0 ((take16_goBytes_eq_nil _).mp h)),
        truncBytes_eq_take]
  have hs1 : (handleMessage s peerID env rnd clock).1
      = { s with
          peerToRoom := mapSet s.peerToRoom peerID (getString env.Payload "roomId" "")
          rooms := (mapSet s.rooms (getString env.Payload "roomId" "")
            { r with
              Players := r.Players ++
                [⟨peerID,
                  if getString env.Payload "playerName" "" = "" then
                    playerN (r.Players.length + 1)
                  else (goBytes (getString env.Payload "playerName" "")).take 16,
                  false, false⟩]
              LastActive := clock 0 }) } := by
    rw [← hname]
    simp [handleMessage, hp, ht, handleJoin, hr, hnf, hst]
  have hdef : playerN (r.Players.length + 1)
      = (String.toUTF8 ("Player" ++ toString (r.Players.length + 1))).data.toList.map
          UInt8.toNat := goBytes_eq_toUTF8 _
  rw [hs1]
  refine ⟨_, mapGet_mapSet_self _ _ _, mapGet_mapSet_self _ _ _, fun k hk => ?_,
    fun q hq => ?_, rfl, fun hno => ?_, fun v pad1 core pad2 hl hv h1 h2 hhead hlast => ?_⟩
  · simp only [mapGet_mapSet]
    rw [if_neg (fun h => hk h.symm)]
  · simp only [mapGet_mapSet]
    rw [if_neg (fun h => hq h.symm)]
  · rw [getString_of_not_str _ _ _ hno, if_pos rfl, hdef]
  · rw [getString_of_padding _ _ _ v pad1 core pad2 hl hv h1 h2 hhead hlast]
    by_cases hc : core = []
    · rw [if_pos hc, if_pos hc, if_pos rfl, hdef]
    · have hne : (⟨core⟩ : String) ≠ "" := fun h => hc (congrArg String.data h)
      rw [if_neg hc, if_neg hc, if_neg hne, goBytes_eq_toUTF8]

theorem sweepRoom_rooms_eq (now : Int) (s : Server) (k : String) (r : Room) :
    (sweepRoom now s k r).rooms
      = s.rooms.filter (fun e => !(decide (roomExpired now r) && decide (k = e.1))) := by
  unfold sweepRoom
  by_cases hexp : roomExpired now r
  · have hc : r.Players.length = 0 ∨ now - r.LastActive > roomTTLMillis := hexp
    rw [if_pos hc]
    simp only [mapDelete, hexp, decide_True, Bool.true_and]
    apply List.filter_congr
    intro e _
    by_cases hk : k = e.1
    · simp [hk]
    · have hk1 : ¬ e.1 = k := fun h => hk h.symm
      simp [hk, hk1]
  · have hc : ¬ (r.Players.length = 0 ∨ now - r.LastActive > roomTTLMillis) := hexp
    rw [if_neg hc]
    simp [hexp]

theorem foldl_sweepRoom_rooms_eq (now : Int) (l : List (String × Room)) :
    ∀ (s : Server), (l.foldl (fun acc e => sweepRoom now acc e.1 e.2) s).rooms
      = s.rooms.filter (fun e =>
          !(l.any fun x => decide (roomExpired now x.2) && decide (x.1 = e.1))) := by
  induction l with
  | nil => intro s; simp
  | cons x xs ih =>
    intro s
    simp only [List.foldl_cons, List.any_cons]
    rw [ih, sweepRoom_rooms_eq, List.filter_filter]
    apply List.filter_congr
    intro e _
    simp only [Bool.not_or, Bool.and_comm]

theorem mapGet_eq_none_of_no_key {V : Type} {m : List (String × V)} {k : String}
    (h : ∀ e ∈ m, e.1 ≠ k) : mapGet m k = none := by
  cases hg : mapGet m k with
  | none => rfl
  | some v => exact absurd rfl (h _ (mapGet_mem hg))

/-- C18. Reaper eviction rule: for every registry (a map holds each room id
once) and every sweep time `now`, after one sweep the stored rooms are
exactly the rooms stored before that have a player and satisfy
`now - LastActive ≤ 300000`, each unchanged and in the same order; no room
that is empty or has `now - LastActive > 300000` can be looked up any
more. -/
theorem cleanupExpiredRooms_rooms (now : Int) (s : Server)
    (hkeys : (s.rooms.map Prod.fst).Nodup) :
    (cleanupExpiredRooms now s).rooms
      = s.rooms.filter (fun e =>
          decide (e.2.Players ≠ [] ∧ now - e.2.LastActive ≤ 300000)) ∧
    (∀ e ∈ s.rooms, e.2.Players = [] ∨ now - e.2.LastActive > 300000 →
      mapGet (cleanupExpiredRooms now s).rooms e.1 = none) := by
  have hexp : ∀ r : Room,
      roomExpired now r ↔ ¬ (r.Players ≠ [] ∧ now - r.LastActive ≤ 300000) := by
    intro r
    unfold roomExpired roomTTLMillis
    rw [List.length_eq_zero]
    constructor
    · rintro (h | h) ⟨h1, h2⟩
      · exact h1 h
      · omega
    · intro h
      by_cases h1 : r.Players = []
      · exact Or.inl h1
      · right
        have : ¬ (now - r.LastActive ≤ 300000) := fun h2 => h ⟨h1, h2⟩
        omega
  constructor
  · unfold cleanupExpiredRooms
    rw [foldl_sweepRoom_rooms_eq]
    apply List.filter_congr
    intro e he
    by_cases hk : e.2.Players ≠ [] ∧ now - e.2.LastActive ≤ 300000
    · have hne : ¬ roomExpired now e.2 := fun h => (hexp e.2).mp h hk
      rw [decide_eq_true hk, Bool.not_eq_true', List.any_eq_false]
      intro x hx
      by_cases hx1 : x.1 = e.1
      · have hxe : x = e := eq_of_key_eq_of_nodup hkeys hx he hx1
        rw [hxe]
        simp [hne]
      · simp [hx1]
    · have hy : roomExpired now e.2 := (hexp e.2).mpr hk
      rw [decide_eq_false hk, Bool.not_eq_false', List.any_eq_true]
      exact ⟨e, he, by simp [hy]⟩
  · intro e he hgone
    apply mapGet_eq_none_of_no_key
    intro x hx
    refine foldl_sweepRoom_expired_gone now s.rooms s e he ((hexp e.2).mpr ?_) x hx
    rintro ⟨h1, h2⟩
    rcases hgone with h | h
    · exact h1 h
    · omega

theorem mapGet_foldl_mapDelete_or_none (players : List Player)
    (idx : List (String × String)) (p : String) :
    mapGet (players.foldl (fun idx pl => mapDelete idx pl.PeerID) idx) p = mapGet idx p ∨
      mapGet (players.foldl (fun idx pl => mapDelete idx pl.PeerID) idx) p = none := by
  induction players generalizing idx with
  | nil => exact Or.inl rfl
  | cons q qs ih =>
    simp only [List.foldl_cons]
    rcases ih (mapDelete idx q.PeerID) with h | h
    · rw [h, mapGet_mapDelete]
      by_cases hq : q.PeerID = p
      · exact Or.inr (if_pos hq)
      · exact Or.inl (if_neg hq)
    · exact Or.inr h

theorem foldl_sweepRoom_index_or_none (now : Int) (l : List (String × Room)) (p : String) :
    ∀ (s : Server),
      mapGet (l.foldl (fun acc e => sweepRoom now acc e.1 e.2) s).peerToRoom p
          = mapGet s.peerToRoom p ∨
        mapGet (l.foldl (fun acc e => sweepRoom now acc e.1 e.2) s).peerToRoom p = none := by
  induction l with
  | nil => intro s; exact Or.inl rfl
  | cons x xs ih =>
    intro s
    simp only [List.foldl_cons]
    have hstep : mapGet (sweepRoom now s x.1 x.2).peerToRoom p = mapGet s.peerToRoom p ∨
        mapGet (sweepRoom now s x.1 x.2).peerToRoom p = none := by
      unfold sweepRoom
      split_ifs
      · exact mapGet_foldl_mapDelete_or_none _ _ _
      · exact Or.inl rfl
    rcases ih (sweepRoom now s x.1 x.2) with h | h
    · rcases hstep with h1 | h1
      · exact Or.inl (h.trans h1)
      · exact Or.inr (h.trans h1)
    · exact Or.inr h

/-- C19 (amended). Reaper index frame, for registries reached by runs in
which every `room.create` and `room.join` comes from a peer that no stored
room lists: a sweep never adds or redirects an index entry; an entry whose
target room is still stored after the sweep is unchanged; an entry that the
sweep removes pointed at a room that was stored and that the sweep deleted;
and every player of a surviving room still resolves that room through the
index. -/
theorem cleanupExpiredRooms_index (s : Server) (now : Int)
    (h : ReachableBy (fun s e => entersFresh s e = true) s) :
    (∀ p, mapGet (cleanupExpiredRooms now s).peerToRoom p = mapGet s.peerToRoom p ∨
      mapGet (cleanupExpiredRooms now s).peerToRoom p = none) ∧
    (∀ p k, mapGet s.peerToRoom p = some k →
      mapGet (cleanupExpiredRooms now s).rooms k ≠ none →
      mapGet (cleanupExpiredRooms now s).peerToRoom p = some k) ∧
    (∀ p k, mapGet s.peerToRoom p = some k →
      mapGet (cleanupExpiredRooms now s).peerToRoom p = none →
      mapGet s.rooms k ≠ none ∧ mapGet (cleanupExpiredRooms now s).rooms k = none) ∧
    (∀ x ∈ (cleanupExpiredRooms now s).rooms, ∀ pl ∈ x.2.Players,
      mapGet (cleanupExpiredRooms now s).peerToRoom pl.PeerID = some x.1) := by
  have hinv := reachableBy_indexInv s h
  have hinv1 : IndexInv (cleanupExpiredRooms now s) :=
    Transition.indexInv (Transition.swept now) rfl hinv
  have hcase : ∀ p k, mapGet s.peerToRoom p = some k →
      mapGet (cleanupExpiredRooms now s).peerToRoom p = some k ∨
      (mapGet s.rooms k ≠ none ∧ mapGet (cleanupExpiredRooms now s).rooms k = none) := by
    intro p k hk
    rcases foldl_sweepRoom_index now s.rooms p s with h1 | ⟨x, hx, hexp, pl, hpl, hid⟩
    · exact Or.inl (h1.trans hk)
    · right
      have hxk := hinv.2 x hx pl hpl
      rw [hid, hk] at hxk
      have hkx : k = x.1 := by simpa using hxk
      rw [hkx]
      refine ⟨mapGet_ne_none_of_mem hx, mapGet_eq_none_of_no_key ?_⟩
      exact foldl_sweepRoom_expired_gone now s.rooms s x hx hexp
  refine ⟨fun p => foldl_sweepRoom_index_or_none now s.rooms p s, ?_, ?_, hinv1.2⟩
  · intro p k hk hsurv
    rcases hcase p k hk with h1 | h1
    · exact h1
    · exact absurd h1.2 hsurv
  · intro p k hk hgone
    rcases hcase p k hk with h1 | h1
    · rw [hgone] at h1; cases h1
    · exact h1

/-! ### Snapshots -/

theorem foldl_sweepRoom_peers (now : Int) (l : List (String × Room)) :
    ∀ (s : Server), (l.foldl (fun acc e => sweepRoom now acc e.1 e.2) s).peers = s.peers := by
  induction l with
  | nil => intro s; rfl
  | cons x xs ih =>
    intro s
    simp only [List.foldl_cons]
    rw [ih]
    unfold sweepRoom
    split_ifs <;> rfl

/-- Witness of C12: `peer-2` joins the freshly created sample room as `Bob`;
joining without a name it is called `Player2`; of a padded name only the first
16 bytes of the core are kept. -/
theorem handleMessage_join_success_witness :
    mapGet (handleMessage Sample.created "peer-2" (Sample.joinEnv "Bob") 0 Sample.clock).1.rooms
        Sample.roomID = some Sample.lobbyRoom ∧
    mapGet
        (handleMessage Sample.created "peer-2" (Sample.joinEnv "Bob") 0 Sample.clock).1.peerToRoom
        "peer-2" = some Sample.roomID ∧
    mapGet (handleMessage Sample.created "peer-2" Sample.anonJoinEnv 0 Sample.clock).1.rooms
        Sample.roomID
      = some { Sample.lobbyRoom with
          Players := [⟨"peer-1", [65, 110, 110], true, true⟩,
                      ⟨"peer-2", [80, 108, 97, 121, 101, 114, 50], false, false⟩] } ∧
    mapGet (handleMessage Sample.created "peer-2" (Sample.joinEnv "  Zoë the Magnificent ") 0
        Sample.clock).1.rooms Sample.roomID
      = some { Sample.lobbyRoom with
          Players := [⟨"peer-1", [65, 110, 110], true, true⟩,
                      ⟨"peer-2", [90, 111, 195, 171, 32, 116, 104, 101, 32, 77, 97, 103, 110,
                        105, 102, 105], false, false⟩] } := by
  obtain ⟨n1, h1, i1, _, _, _, _, b1⟩ :=
    handleMessage_join_success Sample.created "peer-2" ⟨"peer-2", false⟩
      (Sample.joinEnv "Bob") 0 Sample.clock Sample.freshRoom
      (by decide) (by decide) (by decide) (by decide) (by decide)
  have e1 := b1 "Bob" [] "Bob".data [] (by decide) (by decide) (by decide) (by decide)
    (by decide) (by decide)
  obtain ⟨n2, h2, _, _, _, _, a2, _⟩ :=
    handleMessage_join_success Sample.created "peer-2" ⟨"peer-2", false⟩
      Sample.anonJoinEnv 0 Sample.clock Sample.freshRoom
      (by decide) (by decide) (by decide) (by decide) (by decide)
  have e2 := a2 (by simp [Sample.anonJoinEnv, List.lookup])
  obtain ⟨n3, h3, _, _, _, _, _, b3⟩ :=
    handleMessage_join_success Sample.created "peer-2" ⟨"peer-2", false⟩
      (Sample.joinEnv "  Zoë the Magnificent ") 0 Sample.clock Sample.freshRoom
      (by decide) (by decide) (by decide) (by decide) (by decide)
  have e3 := b3 "  Zoë the Magnificent " "  ".data "Zoë the Magnificent".data " ".data
    (by decide) (by decide) (by decide) (by decide) (by decide) (by decide)
  subst e1 e2 e3
  exact ⟨h1.trans (by decide), i1.trans (by decide), h2.trans (by decide),
    h3.trans (by decide)⟩

/-- Counterexample to C13 as stated: `peer-3` is registered and in no room;
its envelope of the unknown type `ping` is answered with `room_not_found`,
not with `bad_request`. -/
theorem unknown_type_counterexample :
    Reachable Sample.lobby ∧
    mapGet Sample.lobby.peers "peer-3" = some ⟨"peer-3", false⟩ ∧
    Sample.pingEnv.Typ ∉ knownTypes ∧
    (handleMessage Sample.lobby "peer-3" Sample.pingEnv 0 Sample.clock).2
      = [⟨"peer-3", "error", .error "room_not_found" "Room no longer exists", "x"⟩] :=
  ⟨reachable_lobby, by decide, by decide, by decide⟩

/-- Witness of C13 (amended): the same envelope from the member `peer-1` is
answered with `bad_request`. -/
theorem handleMessage_unknown_type_witness :
    (handleMessage Sample.lobby "peer-1" Sample.pingEnv 0 Sample.clock).1 = Sample.lobby ∧
    (handleMessage Sample.lobby "peer-1" Sample.pingEnv 0 Sample.clock).2
      = [⟨"peer-1", "error", .error "bad_request" "Unknown type: ping", "x"⟩] :=
  have h := handleMessage_unknown_type Sample.lobby "peer-1" ⟨"peer-1", false⟩
    Sample.pingEnv 0 Sample.clock (by decide) (by decide)
  ⟨h.1, h.2.trans (by decide)⟩

/-- Counterexample to C14 as stated: the rejections for an unknown room id and
for a room at capacity are envelopes of type `room.not_found` and
`room.full`, not of type `error`. -/
theorem join_rejection_counterexample :
    (handleMessage Sample.lobby "peer-3"
        ⟨"room.join", [("roomId", .str "room-nowhere")], "j2"⟩ 0 Sample.clock).2
      = [⟨"peer-3", "room.not_found", .roomRef "room-nowhere", "j2"⟩] ∧
    (handleMessage Sample.lobby "peer-3" (Sample.joinEnv "Cy") 0 Sample.clock).2
      = [⟨"peer-3", "room.full", .roomFull Sample.roomID 2 2, "j1"⟩] :=
  ⟨by decide, by decide⟩

/-- Witness of C14 (amended): the three rejections on the sample
registries. -/
theorem handleMessage_join_rejections_witness :
    (handleMessage Sample.lobby "peer-3"
        ⟨"room.join", [("roomId", .str "room-nowhere")], "j2"⟩ 0 Sample.clock)
      = (Sample.lobby, [⟨"peer-3", "room.not_found", .roomRef "room-nowhere", "j2"⟩]) ∧
    (handleMessage Sample.inGameOpen "peer-3" (Sample.joinEnv "Cy") 0 Sample.clock)
      = (Sample.inGameOpen,
          [⟨"peer-3", "error", .error "forbidden" "Match already started", "j1"⟩]) :=
  ⟨((handleMessage_join_rejections Sample.lobby "peer-3" ⟨"peer-3", false⟩
      ⟨"room.join", [("roomId", .str "room-nowhere")], "j2"⟩ 0 Sample.clock
      (by decide) (by decide)).1 (by decide)).trans (by decide),
    ((handleMessage_join_rejections Sample.inGameOpen "peer-3" ⟨"peer-3", false⟩
      (Sample.joinEnv "Cy") 0 Sample.clock (by decide) (by decide)).2.2
      { Sample.lobbyRoom with Status := "in-game", MaxPlayers := 3 }
      (by decide) (by decide) (by decide)).trans (by decide)⟩

/-- Witness of C16: the `game.input` of `peer-2` goes to the host `peer-1`
only, and the `game.input` of the host is refused. -/
theorem handleMessage_relay_witness :
    (handleMessage Sample.lobby "peer-2" Sample.inputEnv 0 Sample.clock)
      = (Sample.lobby,
          [⟨"peer-1", "game.input", .input "peer-2" [("angle", .num 45 0)], ""⟩]) ∧
    (handleMessage Sample.lobby "peer-1" Sample.inputEnv 0 Sample.clock).2
      = [⟨"peer-1", "error", .error "forbidden" "Host should apply actions locally", "g1"⟩] :=
  have h2 := handleMessage_relay Sample.lobby "peer-2" Sample.roomID ⟨"peer-2", false⟩
    Sample.inputEnv 0 Sample.clock Sample.lobbyRoom 1 ⟨"peer-2", [66, 111, 98], false, false⟩
    (by decide) (Or.inl (by decide)) (by decide) (by decide) (by decide)
  have h1 := handleMessage_relay Sample.lobby "peer-1" Sample.roomID ⟨"peer-1", false⟩
    Sample.inputEnv 0 Sample.clock Sample.lobbyRoom 0 ⟨"peer-1", [65, 110, 110], true, true⟩
    (by decide) (Or.inl (by decide)) (by decide) (by decide) (by decide)
  ⟨Prod.ext h2.1
      (((h2.2.2 (by decide)).2 ⟨"peer-1", false⟩ (by decide)).1.trans (by decide)),
    (h1.2.1 (by decide)).trans (by decide)⟩

/-- Witness of C18: of the two rooms of `staleRoomEvents`, a sweep at time
400000 keeps the one last active at 200000 and drops the one last active at
0. -/
theorem cleanupExpiredRooms_rooms_witness :
    ((run newServer Sample.staleRoomEvents).rooms.map Prod.fst).Nodup ∧
    (run newServer Sample.staleRoomEvents).rooms.map Prod.fst
      = [makeRoomID 5 0, makeRoomID 6 200000] ∧
    (cleanupExpiredRooms 400000 (run newServer Sample.staleRoomEvents)).rooms.map Prod.fst
      = [makeRoomID 6 200000] :=
  ⟨by decide, by decide,
    (congrArg (List.map Prod.fst)
      (cleanupExpiredRooms_rooms 400000 (run newServer Sample.staleRoomEvents)
        (by decide)).1).trans (by decide)⟩

/-- Counterexample to C19 as stated: `peer-1` is a player of both rooms of
`staleRoomEvents` and indexed to the second; the sweep at time 400000 deletes
only the first room, yet removes the index entry of `peer-1`, whose target
room survives and still lists it. -/
theorem sweep_index_counterexample :
    Reachable (run newServer Sample.staleRoomEvents) ∧
    mapGet (run newServer Sample.staleRoomEvents).peerToRoom "peer-1"
      = some (makeRoomID 6 200000) ∧
    (∃ r, mapGet (cleanupExpiredRooms 400000 (run newServer Sample.staleRoomEvents)).rooms
        (makeRoomID 6 200000) = some r ∧
      "peer-1" ∈ r.Players.map (fun pl => pl.PeerID)) ∧
    mapGet (cleanupExpiredRooms 400000 (run newServer Sample.staleRoomEvents)).peerToRoom
      "peer-1" = none :=
  ⟨reachable_run _, by decide, by decide, by decide⟩

/-- Witness of C19 (amended): a sweep one millisecond after the sample lobby
was last active keeps the room and the index entries of its two players. -/
theorem cleanupExpiredRooms_index_witness :
    ReachableBy (fun s e => entersFresh s e = true) (run newServer Sample.lobbyEvents) ∧
    ∀ x ∈ (cleanupExpiredRooms 1700000000001 (run newServer Sample.lobbyEvents)).rooms,
      ∀ pl ∈ x.2.Players,
        mapGet (cleanupExpiredRooms 1700000000001
          (run newServer Sample.lobbyEvents)).peerToRoom pl.PeerID = some x.1 :=
  have h := reachableBy_of_runAllowed entersFresh Sample.lobbyEvents newServer
    ReachableBy.init (by decide)
  ⟨h, (cleanupExpiredRooms_index _ 1700000000001 h).2.2.2⟩

/-! ### Soundness of the index -/

theorem makeRoomID_ne_empty (rnd : Nat) (nowMs : Int) : makeRoomID rnd nowMs ≠ "" := by
  intro h
  have h1 := congrArg String.length h
  simp only [makeRoomID, String.length_append] at h1
  have h5 : ("room-" : String).length = 5 := by decide
  have h0 : ("" : String).length = 0 := by decide
  rw [h5, h0] at h1
  omega

theorem mapGet_of_mem_nodup {V : Type} {m : List (String × V)} {k : String} {v : V}
    (hn : (m.map Prod.fst).Nodup) (h : (k, v) ∈ m) : mapGet m k = some v := by
  cases hg : mapGet m k with
  | none => exact absurd hg (mapGet_ne_none_of_mem h)
  | some w =>
    have := eq_of_key_eq_of_nodup hn (mapGet_mem hg) h rfl
    simp only [Prod.mk.injEq, true_and] at this
    rw [this]

theorem mapGet_foldl_mapDelete_mem (players : List Player) (idx : List (String × String))
    {pl : Player} (h : pl ∈ players) :
    mapGet (players.foldl (fun idx pl => mapDelete idx pl.PeerID) idx) pl.PeerID = none := by
  induction players generalizing idx with
  | nil => cases h
  | cons q qs ih =>
    simp only [List.foldl_cons]
    simp only [List.mem_cons] at h
    rcases h with h | h
    · subst h
      rcases mapGet_foldl_mapDelete_or_none qs (mapDelete idx pl.PeerID) pl.PeerID with h1 | h1
      · rw [h1, mapGet_mapDelete]; simp
      · exact h1
    · exact ih _ h

theorem foldl_sweepRoom_index_deleted (now : Int) (l : List (String × Room)) :
    ∀ (s : Server), ∀ x ∈ l, roomExpired now x.2 → ∀ pl ∈ x.2.Players,
      mapGet (l.foldl (fun acc e => sweepRoom now acc e.1 e.2) s).peerToRoom pl.PeerID
        = none := by
  induction l with
  | nil => intro s x hx; cases hx
  | cons y ys ih =>
    intro s x hx hexp pl hpl
    simp only [List.foldl_cons]
    simp only [List.mem_cons] at hx
    rcases hx with hx | hx
    · subst hx
      have hc : x.2.Players.length = 0 ∨ now - x.2.LastActive > roomTTLMillis := hexp
      have h1 : mapGet (sweepRoom now s x.1 x.2).peerToRoom pl.PeerID = none := by
        simp only [sweepRoom, hc, if_true]
        exact mapGet_foldl_mapDelete_mem _ _ hpl
      rcases foldl_sweepRoom_index_or_none now ys pl.PeerID (sweepRoom now s x.1 x.2)
        with h2 | h2
      · exact h2.trans h1
      · exact h2
    · exact ih _ x hx hexp pl hpl

theorem cleanupExpiredRooms_rooms_filter (now : Int) (s : Server)
    (hkeys : (s.rooms.map Prod.fst).Nodup) :
    (cleanupExpiredRooms now s).rooms
      = s.rooms.filter (fun e => !decide (roomExpired now e.2)) := by
  unfold cleanupExpiredRooms
  rw [foldl_sweepRoom_rooms_eq]
  apply List.filter_congr
  intro e he
  by_cases hexp : roomExpired now e.2
  · rw [decide_eq_true hexp, Bool.not_true, Bool.not_eq_false', List.any_eq_true]
    exact ⟨e, he, by simp [hexp]⟩
  · rw [decide_eq_false hexp, Bool.not_false, Bool.not_eq_true', List.any_eq_false]
    intro x hx
    by_cases hx1 : x.1 = e.1
    · have hxe : x = e := eq_of_key_eq_of_nodup hkeys hx he hx1
      rw [hxe]
      simp [hexp]
    · simp [hx1]

theorem freshIds_spec {s : Server} {peerID : String} {env : Envelope} {rnd : Nat}
    {clock : Nat → Int} {p : Peer} (h : freshIds s (.message peerID env rnd clock) = true)
    (ht : env.Typ = "room.create") (hp : mapGet s.peers peerID = some p) :
    mapGet s.rooms (makeRoomID (rnd % 36 ^ 6) (clock 0)) = none := by
  have hc : env.Typ = "room.create" ∧ mapGet s.peers peerID ≠ none :=
    ⟨ht, by rw [hp]; exact Option.some_ne_none p⟩
  simp only [freshIds] at h
  rw [if_pos hc] at h
  exact Option.isNone_iff_eq_none.mp h

theorem mem_of_mem_filterPlayers_promote {players : List Player} {peerID q : String}
    (h : ∃ pl ∈ players, pl.PeerID = q) (hq : peerID ≠ q) :
    ∃ pl ∈ promoteHost (filterPlayers players peerID), pl.PeerID = q := by
  obtain ⟨pl, hpl, hid⟩ := h
  have hin : q ∈ (promoteHost (filterPlayers players peerID)).map (fun pl => pl.PeerID) := by
    rw [map_peerID_promoteHost]
    refine List.mem_map.mpr ⟨pl, ?_, hid⟩
    simp only [filterPlayers, List.mem_filter, decide_eq_true_eq]
    exact ⟨hpl, fun h => hq (h.symm.trans hid)⟩
  obtain ⟨pl1, hpl1, hid1⟩ := List.mem_map.mp hin
  exact ⟨pl1, hpl1, hid1⟩

/-- Soundness of the index is maintained by every transition made by an event
that `freshIds` allows. -/
theorem Transition.indexSound {s s1 : Server} {e : Event} (ht : Transition s e s1)
    (hok : freshIds s e = true) (hs : IndexSound s) : IndexSound s1 := by
  obtain ⟨hkeys, hne, hidx⟩ := hs
  cases ht with
  | idle => exact ⟨hkeys, hne, hidx⟩
  | registered =>
    refine ⟨hkeys, hne, fun q k hq => ?_⟩
    obtain ⟨h1, h2⟩ := hidx q k hq
    refine ⟨?_, h2⟩
    show mapGet (mapSet s.peers _ _) q ≠ none
    rw [mapGet_mapSet]
    split_ifs
    · exact Option.some_ne_none _
    · exact h1
  | created peerID env rnd clock p k r pl hp hty hk hid hst h2 h10 hpl hpid hhost =>
    have hfresh : mapGet s.rooms k = none := hk ▸ freshIds_spec hok hty hp
    refine ⟨keys_mapSet_nodup k r hkeys, ?_, ?_⟩
    · intro x hx
      rcases mem_mapSet hx with h | h
      · exact hne x h
      · rw [h, hk]; exact makeRoomID_ne_empty _ _
    · intro q k1 hq
      simp only [mapGet_mapSet] at hq ⊢
      by_cases hqp : peerID = q
      · rw [if_pos hqp] at hq
        have hk1 : k = k1 := by simpa using hq
        subst hk1
        subst hqp
        refine ⟨by rw [hp]; exact Option.some_ne_none p, ?_⟩
        rw [if_pos rfl]
        exact ⟨r, rfl, pl, by simp [hpl], hpid⟩
      · rw [if_neg hqp] at hq
        obtain ⟨h1, r1, hr1, hin⟩ := hidx q k1 hq
        have hkk : ¬ k = k1 := fun h => by
          rw [← h, hfresh] at hr1
          cases hr1
        exact ⟨h1, r1, by rw [if_neg hkk]; exact hr1, hin⟩
  | joined peerID env rnd clock p r pl hp hty hr hlt hst hpid hhost =>
    refine ⟨keys_mapSet_nodup _ _ hkeys, ?_, ?_⟩
    · intro x hx
      rcases mem_mapSet hx with h | h
      · exact hne x h
      · rw [h]; exact hne (_, r) (mapGet_mem hr)
    · intro q k1 hq
      simp only [mapGet_mapSet] at hq ⊢
      by_cases hqp : peerID = q
      · rw [if_pos hqp] at hq
        have hk1 : getString env.Payload "roomId" "" = k1 := by simpa using hq
        subst hk1
        subst hqp
        refine ⟨by rw [hp]; exact Option.some_ne_none p, ?_⟩
        rw [if_pos rfl]
        exact ⟨_, rfl, pl, by simp, hpid⟩
      · rw [if_neg hqp] at hq
        obtain ⟨h1, r1, hr1, pl1, hpl1, hid1⟩ := hidx q k1 hq
        by_cases hkk : getString env.Payload "roomId" "" = k1
        · rw [← hkk, hr] at hr1
          cases hr1
          refine ⟨h1, ?_⟩
          rw [if_pos hkk]
          exact ⟨_, rfl, pl1, by simp [hpl1], hid1⟩
        · exact ⟨h1, r1, by rw [if_neg hkk]; exact hr1, pl1, hpl1, hid1⟩
  | unindexed e peerID hno =>
    refine ⟨hkeys, hne, fun q k hq => ?_⟩
    have hq1 : mapGet (mapDelete s.peerToRoom peerID) q = some k := hq
    rw [mapGet_mapDelete] at hq1
    by_cases hqp : peerID = q
    · rw [if_pos hqp] at hq1; cases hq1
    · rw [if_neg hqp] at hq1
      obtain ⟨h1, h2⟩ := hidx q k hq1
      refine ⟨?_, h2⟩
      show mapGet (mapDelete s.peers peerID) q ≠ none
      rw [mapGet_mapDelete_ne _ hqp]; exact h1
  | emptied e peerID k r hi hr hempty =>
    refine ⟨keys_mapDelete_nodup k hkeys, fun x hx => hne x (mem_mapDelete.mp hx).1,
      fun q k1 hq => ?_⟩
    have hq1 : mapGet (mapDelete s.peerToRoom peerID) q = some k1 := hq
    rw [mapGet_mapDelete] at hq1
    by_cases hqp : peerID = q
    · rw [if_pos hqp] at hq1; cases hq1
    · rw [if_neg hqp] at hq1
      obtain ⟨h1, r1, hr1, pl1, hpl1, hid1⟩ := hidx q k1 hq1
      have hkk : k ≠ k1 := by
        intro h
        rw [← h, hr] at hr1
        cases hr1
        have hin : pl1 ∈ filterPlayers r.Players peerID := by
          simp only [filterPlayers, List.mem_filter, decide_eq_true_eq]
          exact ⟨hpl1, fun h => hqp (h.symm.trans hid1)⟩
        rw [hempty] at hin
        cases hin
      refine ⟨?_, r1, ?_, pl1, hpl1, hid1⟩
      · show mapGet (mapDelete s.peers peerID) q ≠ none
        rw [mapGet_mapDelete_ne _ hqp]; exact h1
      · show mapGet (mapDelete s.rooms k) k1 = some r1
        rw [mapGet_mapDelete_ne _ hkk]; exact hr1
  | departed e peerID k r now hi hr hne1 =>
    refine ⟨keys_mapSet_nodup _ _ hkeys, ?_, fun q k1 hq => ?_⟩
    · intro x hx
      rcases mem_mapSet hx with h | h
      · exact hne x h
      · rw [h]; exact hne (_, r) (mapGet_mem hr)
    · have hq1 : mapGet (mapDelete s.peerToRoom peerID) q = some k1 := hq
      rw [mapGet_mapDelete] at hq1
      by_cases hqp : peerID = q
      · rw [if_pos hqp] at hq1; cases hq1
      · rw [if_neg hqp] at hq1
        obtain ⟨h1, r1, hr1, hin⟩ := hidx q k1 hq1
        refine ⟨?_, ?_⟩
        · show mapGet (mapDelete s.peers peerID) q ≠ none
          rw [mapGet_mapDelete_ne _ hqp]; exact h1
        · show ∃ r2, mapGet (mapSet s.rooms k _) k1 = some r2 ∧ _
          rw [mapGet_mapSet]
          by_cases hkk : k = k1
          · rw [← hkk, hr] at hr1
            cases hr1
            rw [if_pos hkk]
            exact ⟨_, rfl, mem_of_mem_filterPlayers_promote hin hqp⟩
          · rw [if_neg hkk]
            exact ⟨r1, hr1, hin⟩
  | edited e k r r1 hr hpid hhost hmax hid hst =>
    refine ⟨keys_mapSet_nodup _ _ hkeys, ?_, fun q k1 hq => ?_⟩
    · intro x hx
      rcases mem_mapSet hx with h | h
      · exact hne x h
      · rw [h]; exact hne (_, r) (mapGet_mem hr)
    · obtain ⟨h1, r2, hr2, pl2, hpl2, hid2⟩ := hidx q k1 hq
      refine ⟨h1, ?_⟩
      show ∃ r3, mapGet (mapSet s.rooms k r1) k1 = some r3 ∧ _
      rw [mapGet_mapSet]
      by_cases hkk : k = k1
      · rw [← hkk, hr] at hr2
        cases hr2
        rw [if_pos hkk]
        obtain ⟨pl3, hpl3, hid3⟩ := mem_of_map_peerID_eq hpid.symm hpl2
        exact ⟨r1, rfl, pl3, hpl3, hid3.trans hid2⟩
      · rw [if_neg hkk]
        exact ⟨r2, hr2, pl2, hpl2, hid2⟩
  | swept now =>
    have hkeys1 := foldl_sweepRoom_keys_nodup now s.rooms s hkeys
    refine ⟨hkeys1, fun x hx => hne x (cleanupExpiredRooms_rooms_subset now s x hx),
      fun q k hq => ?_⟩
    have hq0 : mapGet s.peerToRoom q = some k := by
      rcases foldl_sweepRoom_index_or_none now s.rooms q s with h | h
      · exact h ▸ hq
      · have hq1 : mapGet (cleanupExpiredRooms now s).peerToRoom q = none := h
        rw [hq] at hq1; cases hq1
    obtain ⟨h1, r1, hr1, pl1, hpl1, hid1⟩ := hidx q k hq0
    have hmem := mapGet_mem hr1
    refine ⟨?_, r1, ?_, pl1, hpl1, hid1⟩
    · have hp : (cleanupExpiredRooms now s).peers = s.peers :=
        foldl_sweepRoom_peers now s.rooms s
      rw [hp]; exact h1
    · by_cases hexp : roomExpired now r1
      · have hgone := foldl_sweepRoom_index_deleted now s.rooms s _ hmem hexp pl1 hpl1
        rw [hid1] at hgone
        have hq1 : mapGet (cleanupExpiredRooms now s).peerToRoom q = none := hgone
        rw [hq] at hq1; cases hq1
      · apply mapGet_of_mem_nodup hkeys1
        show (k, r1) ∈ (cleanupExpiredRooms now s).rooms
        rw [cleanupExpiredRooms_rooms_filter now s hkeys, List.mem_filter]
        exact ⟨hmem, by simp [hexp]⟩

theorem reachableBy_indexSound (s : Server)
    (h : ReachableBy (fun s e => freshIds s e = true) s) : IndexSound s := by
  refine ReachableBy.induction IndexSound ?_ ?_ s h
  · refine ⟨List.nodup_nil, ?_, ?_⟩
    · intro x hx; cases hx
    · intro p k hk; cases hk
  · intro s e s1 hs hok ht
    exact ht.indexSound hok hs

theorem payload_of_mem_send {p : Peer} {msgType : String} {payload : OutPayload}
    {requestID : String} {d : Delivery} (h : d ∈ p.send msgType payload requestID) :
    d.payload = payload := by
  unfold Peer.send at h
  split_ifs at h
  · cases h
  · simp only [List.mem_singleton] at h
    rw [h]

theorem payload_of_mem_sendEach {recipients : List Peer} {msgType : String}
    {payload : OutPayload} {d : Delivery} (h : d ∈ sendEach recipients msgType payload) :
    d.payload = payload := by
  induction recipients with
  | nil => cases h
  | cons p ps ih =>
    simp only [sendEach, List.mem_append] at h
    rcases h with h | h
    · exact payload_of_mem_send h
    · exact ih h

theorem findPlayer_of_mem {players : List Player} {peerID : String}
    (h : ∃ pl ∈ players, pl.PeerID = peerID) :
    ∃ i pl, findPlayer players peerID = some (i, pl) := by
  induction players with
  | nil =>
    obtain ⟨pl, hpl, _⟩ := h
    cases hpl
  | cons q qs ih =>
    by_cases hq : q.PeerID = peerID
    · exact ⟨0, q, by simp [findPlayer, hq]⟩
    · obtain ⟨pl, hpl, hid⟩ := h
      simp only [List.mem_cons] at hpl
      rcases hpl with hpl | hpl
      · rw [hpl] at hid; exact absurd hid hq
      · obtain ⟨i, pl1, h1⟩ := ih ⟨pl, hpl, hid⟩
        exact ⟨i + 1, pl1, by simp [findPlayer, hq, h1]⟩

theorem removePeer_payloads (s : Server) (peerID : String) (now : Int) :
    ∀ d ∈ (removePeer s peerID now).2, ∃ st, d.payload = .room st := by
  intro d hd
  unfold removePeer at hd
  dsimp only at hd
  cases hidx : mapGet s.peerToRoom peerID with
  | none => rw [hidx] at hd; cases hd
  | some k =>
    rw [hidx] at hd
    dsimp only at hd
    cases hr : mapGet s.rooms k with
    | none => rw [hr] at hd; cases hd
    | some r =>
      rw [hr] at hd
      dsimp only at hd
      split_ifs at hd
      · cases hd
      · exact ⟨_, payload_of_mem_sendEach hd⟩

theorem payload_of_mem_sendError {p : Peer} {code message requestID : String}
    {d : Delivery} (h : d ∈ p.sendError code message requestID) :
    d.payload = .error code message :=
  payload_of_mem_send h

theorem payload_of_mem_broadcast {recipients : List Peer} {state : RoomState}
    {d : Delivery} (h : d ∈ broadcastRoomState recipients state) :
    d.payload = .room state :=
  payload_of_mem_sendEach h

theorem handleRelay_payloads (s : Server) (p : Peer) (peerID roomID : String) (r : Room)
    (pl : Player) (env : Envelope) :
    ∀ d ∈ (handleRelay s p peerID roomID r pl env).2,
      d.payload ≠ .error "forbidden" "Unknown player" := by
  intro d hd heq
  unfold handleRelay at hd
  by_cases hh : pl.IsHost = true
  · rw [if_pos hh] at hd
    have h := payload_of_mem_sendError hd
    rw [heq] at h
    simp at h
  · rw [if_neg hh] at hd
    dsimp only at hd
    generalize (match firstHost r.Players with
      | some rp => rp.PeerID
      | none => "") = hostPeerID at hd
    cases hg : mapGet s.peers hostPeerID with
    | none =>
      rw [hg] at hd
      have h := payload_of_mem_sendError hd
      rw [heq] at h
      simp at h
    | some hostPeer =>
      rw [hg] at hd
      dsimp only at hd
      split_ifs at hd
      · have h := payload_of_mem_send hd
        rw [heq] at h
        cases h
      · have h := payload_of_mem_send hd
        rw [heq] at h
        cases h
      · have h := payload_of_mem_send hd
        rw [heq] at h
        cases h
      · cases hd

theorem handleMember_payloads (s : Server) (p : Peer) (peerID : String) (env : Envelope)
    (clock : Nat → Int)
    (hguard : ∀ r, mapGet s.rooms ((mapGet s.peerToRoom peerID).getD "") = some r →
      findPlayer r.Players peerID ≠ none) :
    ∀ d ∈ (handleMember s p peerID env clock).2,
      d.payload ≠ .error "forbidden" "Unknown player" := by
  intro d hd heq
  unfold handleMember at hd
  dsimp only at hd
  cases hr : mapGet s.rooms ((mapGet s.peerToRoom peerID).getD "") with
  | none =>
    rw [hr] at hd
    have h := payload_of_mem_sendError hd
    rw [heq] at h
    simp at h
  | some r =>
    rw [hr] at hd
    dsimp only at hd
    cases hpl : findPlayer r.Players peerID with
    | none => exact hguard r hr hpl
    | some ip =>
      obtain ⟨i, pl⟩ := ip
      rw [hpl] at hd
      dsimp only at hd
      split_ifs at hd
      all_goals first
        | cases hd
        | exact handleRelay_payloads _ _ _ _ _ _ _ d hd heq
        | (have h := payload_of_mem_sendError hd
           rw [heq] at h
           simp at h)
        | (have h := payload_of_mem_broadcast hd
           rw [heq] at h
           cases h)
        | (have h := payload_of_mem_sendEach hd
           rw [heq] at h
           cases h)
        | (simp only [List.mem_append] at hd
           rcases hd with hd | hd
           · have h := payload_of_mem_sendEach hd
             rw [heq] at h
             cases h
           · have h := payload_of_mem_broadcast hd
             rw [heq] at h
             cases h)

theorem handleJoin_payloads (s : Server) (p : Peer) (peerID : String) (env : Envelope)
    (clock : Nat → Int) :
    ∀ d ∈ (handleJoin s p peerID env clock).2,
      d.payload ≠ .error "forbidden" "Unknown player" := by
  intro d hd heq
  unfold handleJoin at hd
  dsimp only at hd
  cases hr : mapGet s.rooms (getString env.Payload "roomId" "") with
  | none =>
    rw [hr] at hd
    have h := payload_of_mem_send hd
    rw [heq] at h
    cases h
  | some r =>
    rw [hr] at hd
    dsimp only at hd
    split_ifs at hd
    all_goals first
      | (have h := payload_of_mem_sendError hd
         rw [heq] at h
         simp at h)
      | (have h := payload_of_mem_send hd
         rw [heq] at h
         cases h)
      | (simp only [List.mem_append] at hd
         rcases hd with hd | hd
         · have h := payload_of_mem_send hd
           rw [heq] at h
           cases h
         · have h := payload_of_mem_broadcast hd
           rw [heq] at h
           cases h)

theorem handleMessage_payloads (s : Server) (peerID : String) (env : Envelope) (rnd : Nat)
    (clock : Nat → Int)
    (hguard : ∀ r, mapGet s.rooms ((mapGet s.peerToRoom peerID).getD "") = some r →
      findPlayer r.Players peerID ≠ none) :
    ∀ d ∈ (handleMessage s peerID env rnd clock).2,
      d.payload ≠ .error "forbidden" "Unknown player" := by
  intro d hd heq
  unfold handleMessage at hd
  cases hp : mapGet s.peers peerID with
  | none => rw [hp] at hd; cases hd
  | some p =>
    rw [hp] at hd
    dsimp only at hd
    split_ifs at hd
    · have h := payload_of_mem_send hd
      rw [heq] at h
      cases h
    · unfold handleCreate at hd
      have h := payload_of_mem_send hd
      rw [heq] at h
      cases h
    · exact handleJoin_payloads s p peerID env clock d hd heq
    · obtain ⟨st, h⟩ := removePeer_payloads s peerID (clock 0) d hd
      rw [heq] at h
      cases h
    · exact handleMember_payloads s p peerID env clock hguard d hd heq

/-- C21. Index soundness: in every registry reachable from the empty one by
registrations, handled messages, peer removals and reaper sweeps, every
generated room id being new when it is generated, an index entry that maps
peer `p` to room id `k` means that `p` is registered, that a room is stored
under `k` and that this room lists a player with peer id `p`. Consequently
the lookup of the caller's record in the room resolved through the index
always succeeds, and `handleMessage` never writes the error `forbidden` with
the message `Unknown player`. -/
theorem reachable_index_sound (s : Server)
    (h : ReachableBy (fun s e => freshIds s e = true) s) :
    (∀ p k, mapGet s.peerToRoom p = some k →
      mapGet s.peers p ≠ none ∧
      ∃ r, mapGet s.rooms k = some r ∧ ∃ pl ∈ r.Players, pl.PeerID = p) ∧
    (∀ peerID r, mapGet s.rooms ((mapGet s.peerToRoom peerID).getD "") = some r →
      ∃ i pl, findPlayer r.Players peerID = some (i, pl)) ∧
    (∀ peerID env rnd clock, ∀ d ∈ (handleMessage s peerID env rnd clock).2,
      d.payload ≠ .error "forbidden" "Unknown player") := by
  obtain ⟨hkeys, hne, hidx⟩ := reachableBy_indexSound s h
  have hfind : ∀ peerID r,
      mapGet s.rooms ((mapGet s.peerToRoom peerID).getD "") = some r →
      ∃ i pl, findPlayer r.Players peerID = some (i, pl) := by
    intro peerID r hr
    cases hk : mapGet s.peerToRoom peerID with
    | none =>
      rw [hk] at hr
      exact absurd rfl (hne _ (mapGet_mem hr))
    | some k =>
      rw [hk] at hr
      obtain ⟨_, r1, hr1, hin⟩ := hidx peerID k hk
      have hr2 : mapGet s.rooms k = some r := hr
      rw [hr2] at hr1
      cases hr1
      exact findPlayer_of_mem hin
  refine ⟨hidx, hfind, fun peerID env rnd clock => ?_⟩
  apply handleMessage_payloads
  intro r hr hnone
  obtain ⟨i, pl, hsome⟩ := hfind peerID r hr
  rw [hnone] at hsome
  cases hsome

/-- Witness of C21 on the sample lobby: the run generates one room id, new at
that time; `peer-2` is indexed to the sample room, is registered and is
listed there. -/
theorem reachable_index_sound_witness :
    ReachableBy (fun s e => freshIds s e = true) (run newServer Sample.lobbyEvents) ∧
    mapGet (run newServer Sample.lobbyEvents).peerToRoom "peer-2" = some Sample.roomID ∧
    (mapGet (run newServer Sample.lobbyEvents).peers "peer-2" ≠ none ∧
      ∃ r, mapGet (run newServer Sample.lobbyEvents).rooms Sample.roomID = some r ∧
        ∃ pl ∈ r.Players, pl.PeerID = "peer-2") :=
  have h := reachableBy_of_runAllowed freshIds Sample.lobbyEvents newServer
    ReachableBy.init (by decide)
  ⟨h, by decide, (reachable_index_sound _ h).1 "peer-2" Sample.roomID (by decide)⟩

end Signal
